import Mathlib

/-
  Verification development for the task-organizer repository
  (module registry, plan extraction, task graph building, history ledger).

  The Python sources are shallowly embedded:
  * Python dicts become insertion-ordered association lists;
  * the in-memory document store (`firebase_service.py`, class
    `LocalStorageService`) becomes an explicit state threaded through every
    operation (`FirebaseService` delegates to it verbatim in offline mode,
    the only mode whose state is local to the process);
  * nondeterministic collaborators (uuid generation, `datetime.now()`,
    `importlib`) become explicit parameters;
  * unbounded recursion (`ModuleRegistry.load_module`) is given a fuel
    parameter; returning `none` models a Python `RecursionError`
    (the recursion never completes for any stack budget).
-/

namespace OrgTasks

/-- A Python scalar value as stored in the document dictionaries used by the
repository (strings, booleans, integers, `None`). -/
inductive PyVal where
  | vstr (s : String)
  | vbool (b : Bool)
  | vint (n : Int)
  | vnone
  deriving DecidableEq, Repr

/-- A Python dict with string keys, as an insertion-ordered association list. -/
abbrev Doc := List (String × PyVal)

/-- Python dict assignment `d[k] = v`: overwrite in place if the key exists
(dict keys are unique, so replacing the first occurrence is exact), append
otherwise. -/
def dictInsert : List (String × α) → String → α → List (String × α)
  | [], k, v => [(k, v)]
  | kv :: tl, k, v =>
      if kv.1 == k then (k, v) :: tl else kv :: dictInsert tl k v

/-- Merging an update dict into a doc, as Python's
`for key, value in data.items(): doc[key] = value`. -/
def dictMerge (doc upd : Doc) : Doc :=
  upd.foldl (fun d kv => dictInsert d kv.1 kv.2) doc

/-- Apply `f` to the value stored at key `k` (no-op if the key is absent);
Python mutation of the object stored under `k`. -/
def alistModify : List (String × β) → String → (β → β) → List (String × β)
  | [], _, _ => []
  | kv :: tl, k, f =>
      if kv.1 == k then (kv.1, f kv.2) :: tl else kv :: alistModify tl k f

/-- Python `del d[k]` (on dicts, a key occurs at most once). -/
def alistRemove (d : List (String × β)) (k : String) : List (String × β) :=
  d.filter (fun kv => !(kv.1 == k))

/-! ## Document store: `firebase_service.py`, class `LocalStorageService`

`FirebaseService` (same file) delegates every call to `LocalStorageService`
when offline (`firebase_service.py:194,212,230,248`), which is the only
configuration whose state is in-process; the `TaskService` and
`HistoryService` collaborators below consume this interface.  Fresh document
ids (`str(uuid.uuid4())`) are passed in as parameters. -/

namespace LocalStorageService

/-- `st.session_state.local_storage`: collection name → (document id → doc). -/
abbrev Storage := List (String × List (String × Doc))

/-- `get_collection`: create the collection if absent, return its name
(the name is what callers truth-test). -/
def get_collection (storage : Storage) (collection_name : String) :
    String × Storage :=
  if (storage.lookup collection_name).isSome then (collection_name, storage)
  else (collection_name, storage ++ [(collection_name, [])])

/-- `get_documents`: all docs of a collection, each copied with its own
`id` field set to its key. -/
def get_documents (storage : Storage) (collection_name : String) :
    List Doc × Storage :=
  let cs := get_collection storage collection_name
  if cs.1 == "" || (cs.2.lookup collection_name).isNone then ([], cs.2)
  else
    (((cs.2.lookup collection_name).getD []).map
      (fun kv => dictInsert kv.2 "id" (PyVal.vstr kv.1)), cs.2)

/-- `add_document`: store a copy of `data` under a fresh uuid `doc_id`. -/
def add_document (storage : Storage) (collection_name : String) (data : Doc)
    (doc_id : String) : Option String × Storage :=
  let cs := get_collection storage collection_name
  if cs.1 == "" then (none, cs.2)
  else
    (some doc_id,
     alistModify cs.2 collection_name (fun ds => dictInsert ds doc_id data))

/-- `update_document`: merge `data` field-by-field into an existing doc
(merge semantics, not full replace); `False` if the doc does not exist. -/
def update_document (storage : Storage) (collection_name document_id : String)
    (data : Doc) : Bool × Storage :=
  let cs := get_collection storage collection_name
  if cs.1 == "" ||
      (((cs.2.lookup collection_name).getD []).lookup document_id).isNone then
    (false, cs.2)
  else
    (true,
     alistModify cs.2 collection_name
       (fun ds => alistModify ds document_id (fun doc => dictMerge doc data)))

/-- `delete_document`: remove one doc by id; `False` if it does not exist. -/
def delete_document (storage : Storage) (collection_name document_id : String) :
    Bool × Storage :=
  let cs := get_collection storage collection_name
  if cs.1 == "" || (cs.2.lookup collection_name).isNone then (false, cs.2)
  else if (((cs.2.lookup collection_name).getD []).lookup document_id).isNone
  then (false, cs.2)
  else
    (true,
     alistModify cs.2 collection_name (fun ds => alistRemove ds document_id))

end LocalStorageService

/-! ## Task service: `task_service.py`, class `TaskService`

The service talks to `FirebaseService`, which in offline mode is
`LocalStorageService`; its collection is `"todos"` (`task_service.py:70`). -/

namespace TaskService

open LocalStorageService

/-- `self.collection_name = "todos"`. -/
def collection_name : String := "todos"

/-- Python `d.get(k, dflt)` for the string-valued reads
(`subtask.get("id", "")`); the modelled documents store these fields as
strings. -/
def pyGetStrD (d : Doc) (k dflt : String) : String :=
  match d.lookup k with
  | some (PyVal.vstr s) => s
  | _ => dflt

/-- The sort key `x.get("order", 0)` of `get_subtasks` (stored orders are
ints; the default is the int `0`). -/
def orderKey (d : Doc) : Int :=
  match d.lookup "order" with
  | some (PyVal.vint n) => n
  | _ => 0

/-- `get_subtasks` (`task_service.py:89`): all docs whose `parent_id` equals
`parent_id`, sorted ascending by `order` (Python's stable `list.sort`). -/
def get_subtasks (storage : Storage) (parent_id : String) :
    List Doc × Storage :=
  let ds := get_documents storage collection_name
  let subtasks := ds.1.filter
    (fun t => t.lookup "parent_id" == some (PyVal.vstr parent_id))
  (subtasks.mergeSort (fun a b => decide (orderKey a ≤ orderKey b)), ds.2)

/-- `complete_task` (`task_service.py:177`): find the doc whose `id` equals
`task_id`; mark it completed with a timestamp; if it is a main task
(no `parent_id` key), also mark every one of its subtasks. -/
def complete_task (storage : Storage) (task_id : String) (now : PyVal) :
    Bool × Storage :=
  let ds := get_documents storage collection_name
  match ds.1.find? (fun t => t.lookup "id" == some (PyVal.vstr task_id)) with
  | none => (false, ds.2)
  | some task =>
    let update_data : Doc :=
      [("completed", PyVal.vbool true), ("completed_at", now)]
    let r1 := update_document ds.2 collection_name task_id update_data
    if (task.lookup "parent_id").isNone then
      let sub := get_subtasks r1.2 task_id
      let storage4 := sub.1.foldl
        (fun st s =>
          (update_document st collection_name (pyGetStrD s "id" "")
            update_data).2)
        sub.2
      (r1.1, storage4)
    else (r1.1, r1.2)

/-- `delete_task_with_subtasks` (`task_service.py:218`): delete every
subtask of `task_id`, then the task itself; the returned flag is the result
of the final delete. -/
def delete_task_with_subtasks (storage : Storage) (task_id : String) :
    Bool × Storage :=
  let sub := get_subtasks storage task_id
  let storage2 := sub.1.foldl
    (fun st s =>
      (delete_document st collection_name (pyGetStrD s "id" "")).2)
    sub.2
  delete_document storage2 collection_name task_id

end TaskService

/-! ### Effect lemmas for the store operations on the `"todos"` collection -/

namespace TaskService

open LocalStorageService

/-- What `get_documents` does to each stored doc: copy it and set its `id`
field to its key. -/
def injectId (kv : String × Doc) : Doc :=
  dictInsert kv.2 "id" (PyVal.vstr kv.1)

/-- Collection-level effect of deleting each id of `I` in turn. -/
def foldRemove (I : List String) (coll : List (String × Doc)) :
    List (String × Doc) :=
  I.foldl (fun ds id => alistRemove ds id) coll

/-- The filter used by `get_subtasks`. -/
def parentMatch (task_id : String) (t : Doc) : Bool :=
  t.lookup "parent_id" == some (PyVal.vstr task_id)

/-- The sort comparator of `get_subtasks`. -/
def orderLe (a b : Doc) : Bool := decide (orderKey a ≤ orderKey b)

/-! ### `complete_task` machinery -/

/-- The update dict written by `complete_task`. -/
def updDoc (now : PyVal) : Doc :=
  [("completed", PyVal.vbool true), ("completed_at", now)]

/-- Merging the completion update into a doc. -/
def mergeUpd (now : PyVal) (d : Doc) : Doc := dictMerge d (updDoc now)

/-- Collection-level effect of updating each id of `I` with the completion
dict. -/
def foldUpd (now : PyVal) (I : List String) (coll : List (String × Doc)) :
    List (String × Doc) :=
  I.foldl (fun ds id => alistModify ds id (mergeUpd now)) coll

/-- A concrete `"todos"` collection: parent `t1`, its subtasks `s1`, `s2`,
and an unrelated task `t2`. -/
def sampleColl : List (String × Doc) :=
  [("t1", [("title", PyVal.vstr "Parent")]),
   ("s1", [("title", PyVal.vstr "Sub one"),
           ("parent_id", PyVal.vstr "t1"), ("order", PyVal.vint 0)]),
   ("s2", [("title", PyVal.vstr "Sub two"),
           ("parent_id", PyVal.vstr "t1"), ("order", PyVal.vint 1)]),
   ("t2", [("title", PyVal.vstr "Other")])]

/-- A concrete store holding `sampleColl`. -/
def sampleStorage : Storage := [("todos", sampleColl)]

end TaskService

/-! ## History ledger: `geral/history_service.py`, class `HistoryService`

`self.firebase` is either `None` or a `FirebaseService`; every call on
`FirebaseService` catches exceptions internally and surfaces failure as
`None`/`False`/`[]` (`firebase_service.py`), so the collaborator is modelled
as a record of total functions over an abstract store state `σ`.  The opaque
`data` payload dict (never inspected by any consumer of the history
collection) is represented by an uninterpreted `PyVal` standing for Python's
`data or {}`. -/

namespace HistoryService

/-- The Firebase collaborator, narrowed to the calls `HistoryService`
makes. -/
structure FirebaseLike (σ : Type) where
  add_document : σ → String → Doc → Option String × σ
  get_documents : σ → String → List Doc × σ

/-- `self.collection_name = "historico"`. -/
def collection_name : String := "historico"

/-- The entry dict built by `add_history_entry`. -/
def historyEntry (action_type description timestamp : String)
    (data : PyVal) : Doc :=
  [("action_type", PyVal.vstr action_type),
   ("description", PyVal.vstr description),
   ("timestamp", PyVal.vstr timestamp),
   ("data", data)]

/-- `add_history_entry` (`geral/history_service.py:59`): without a backing
service, log and report success; otherwise write the entry and report
success iff the returned id is truthy.  Exceptions are caught and reported
as `False` — never raised. -/
def add_history_entry (fb : Option (FirebaseLike σ)) (s : σ)
    (action_type description timestamp : String) (data : PyVal) :
    Bool × σ :=
  match fb with
  | none => (true, s)
  | some f =>
    let r := f.add_document s collection_name
      (historyEntry action_type description timestamp data)
    match r.1 with
    | some entry_id => (!(entry_id == ""), r.2)
    | none => (false, r.2)

/-- The sort key `x.get('timestamp', '')` (stored timestamps are isoformat
strings). -/
def timestampKey (d : Doc) : String :=
  match d.lookup "timestamp" with
  | some (PyVal.vstr s) => s
  | _ => ""

/-- Default of the `limit` parameter of `get_history`
(`geral/history_service.py:100`). -/
def get_history_default_limit : Nat := 10

/-- `get_history` (`geral/history_service.py:99`): all entries of the
collection, sorted most-recent-first by `timestamp` (Python's stable sort
with `reverse=True`), optionally filtered by a truthy `action_type`,
truncated to `limit`. -/
def get_history (fb : Option (FirebaseLike σ)) (s : σ) (limit : Nat)
    (action_type : Option String) : List Doc × σ :=
  match fb with
  | none => ([], s)
  | some f =>
    let r := f.get_documents s collection_name
    let entries :=
      r.1.mergeSort (fun a b => decide (timestampKey b ≤ timestampKey a))
    let entries2 :=
      match action_type with
      | some t =>
        if t == "" then entries
        else entries.filter
          (fun e => e.lookup "action_type" == some (PyVal.vstr t))
      | none => entries
    (entries2.take limit, r.2)

/-- C3 (counterexample): with a backing store whose write fails
(`add_document` returns `None`, as `FirebaseService` does on any caught
store exception), `add_history_entry` returns `False` — it does *not*
always report success. -/
def failingFirebase : FirebaseLike Unit :=
  { add_document := fun s _ _ => (none, s)
    get_documents := fun s _ => ([], s) }

/-- A fixture store of eleven history entries. -/
def elevenDocs : List Doc :=
  (List.range 11).map
    (fun i => [("action_type", PyVal.vstr "task_creation"),
               ("timestamp", PyVal.vstr (toString i))])

/-- A collaborator exposing the eleven-entry collection. -/
def elevenFirebase : FirebaseLike Unit :=
  { add_document := fun s _ _ => (some "fresh-id", s)
    get_documents := fun s _ => (elevenDocs, s) }

end HistoryService

/-! ### Python string primitives over code-point lists

The text-processing code is embedded over `List Char` (a Python `str` is a
sequence of code points); `String.data`/`String.mk` convert at the
boundaries. -/

/-- Python `s.split(sep)` for a one-character separator: split at every
occurrence, keeping empty pieces. -/
def pySplitChar (c : Char) : List Char → List (List Char)
  | [] => [[]]
  | ch :: rest =>
    let r := pySplitChar c rest
    if ch == c then [] :: r
    else
      match r with
      | [] => [[ch]]
      | hd :: tl => (ch :: hd) :: tl

/-- Python `s.strip()`. -/
def pyStrip (s : List Char) : List Char :=
  ((s.dropWhile Char.isWhitespace).reverse.dropWhile Char.isWhitespace).reverse

/-- Python `s.startswith(c)` for a single character. -/
def headIs (c : Char) : List Char → Bool
  | [] => false
  | ch :: _ => ch == c

/-- Python `s[s.find(c)+1:]`: everything after the first occurrence of `c`;
when `c` is absent, `find` is `-1` and the slice is the whole string. -/
def pyAfterFirst (c : Char) (s : List Char) : List Char :=
  if s.contains c then (s.dropWhile (fun ch => !(ch == c))).drop 1
  else s

/-- Python `needle in hay` (substring containment). -/
def containsSeq (needle : List Char) : List Char → Bool
  | [] => needle.isEmpty
  | s@(_ :: rest) => needle.isPrefixOf s || containsSeq needle rest

/-! ## Plan extraction heuristics: `planning.py`, `create_tasks_from_plan`

Lines 146-215: choose a title, collect bullet and numbered candidate lines,
cap them at 10, substitute a fixed 3-item generic list when fewer than 3
usable lines were found, and create one task carrying the collected lines
as its subtasks (via `TaskService.add_task_with_subtasks`). -/

namespace Planning

/-- The literal fallback title (`planning.py:163`). -/
def fallback_title : String := "Plano gerado pela IA"

/-- The fixed generic fallback subtask list (`planning.py:202-206`). -/
def genericSubtasks : List String :=
  ["Definir objetivos e requisitos",
   "Coletar recursos necessários",
   "Implementar solução"]

/-- The title keywords (`planning.py:167`). -/
def title_keywords : List String := ["plano", "planejamento", "projeto", "tarefa"]

/-- `planning.py:148-160`: non-empty stripped lines that do not start with a
list marker and are longer than 5 characters. -/
def title_candidates (plan_text : String) : List String :=
  (((pySplitChar '\n' plan_text.data).map pyStrip).filter
    (fun line => !line.isEmpty && !(headIs '-' line) && !(headIs '*' line)
      && !(headIs '#' line) && decide (line.length > 5))).map String.mk

/-- `planning.py:162-173`: first candidate containing a keyword
(case-insensitive substring), else the first candidate, else the fallback
literal. -/
def main_title (plan_text : String) : String :=
  let cands := title_candidates plan_text
  let t1 :=
    if cands.isEmpty then fallback_title
    else
      match cands.find? (fun cand => title_keywords.any
        (fun w => containsSeq w.data (cand.data.map Char.toLower))) with
      | some cand => cand
      | none => fallback_title
  if t1 == fallback_title && !cands.isEmpty then cands.headD fallback_title
  else t1

/-- `planning.py:179-184`: a stripped line starting with `-` or `*` whose
marker-stripped trimmed text is truthy and longer than 3 characters. -/
def bullet_task_text (line : List Char) : Option (List Char) :=
  if headIs '-' line || headIs '*' line then
    let t := pyStrip (line.drop 1)
    if !t.isEmpty && decide (t.length > 3) then some t else none
  else none

/-- `planning.py:187-194`: a stripped line starting with a digit, longer
than 3 characters, with `.` or `)` among its first three characters; the
text after the first `.` (preferred) or `)` must be truthy and longer than
3 characters. -/
def numbered_task_text (line : List Char) : Option (List Char) :=
  if !line.isEmpty && (line.headD ' ').isDigit && decide (line.length > 3)
      && ((line.take 3).contains '.' || (line.take 3).contains ')') then
    let t := pyStrip
      (if (line.take 3).contains '.' then pyAfterFirst '.' line
       else pyAfterFirst ')' line)
    if !t.isEmpty && decide (t.length > 3) then some t else none
  else none

/-- `planning.py:176-194`: all bullet candidates in document order, then all
numbered candidates in document order. -/
def subtask_lines (plan_text : String) : List String :=
  let lines := (pySplitChar '\n' plan_text.data).map pyStrip
  (lines.filterMap bullet_task_text
    ++ lines.filterMap numbered_task_text).map String.mk

/-- `planning.py:196-206`: cap the candidates at 10; below 3, substitute the
generic fallback list. -/
def final_subtask_lines (plan_text : String) : List String :=
  let s := subtask_lines plan_text
  let s2 := if s.length > 10 then s.take 10 else s
  if s2.length < 3 then genericSubtasks else s2

/-- `planning.py:208-215`: the single task handed to
`TaskService.add_task_with_subtasks` (title and subtask titles; the store
write itself is the task service's concern). -/
def create_tasks_from_plan_task (plan_text : String) : String × List String :=
  (main_title plan_text, final_subtask_lines plan_text)

/-- The raw text of spec test 3: two bullet lines whose stripped texts are
too short to be usable. -/
def c8_input : String :=
  "Random prose with no markers at all and less than three bullet lines\n- one\n- two"

end Planning

/-! ## Plan materialisation: `home.py`, `create_tasks_from_plan`

Lines 178-273: extract numbered task blocks with their dash subtask lines
from the plan text; warn and return `False` when none are found; otherwise
create a task per block.  The task-creation loop calls
`task_service.add_task(task)` with a single dict argument, while the session
task service is `TaskService` from `task_service.py`, whose `add_task`
(line 110) requires two positional arguments (`title`, `due_date`): in
Python the first loop iteration raises `TypeError`, which the enclosing
`try` turns into `return False` before any document or history write. -/

namespace Home

open LocalStorageService

/-- Whether a line is a dash subtask line of a block
(`\s*-\s*[^\n]+` within the line). -/
def isDashLine (line : List Char) : Bool :=
  let l := line.dropWhile Char.isWhitespace
  headIs '-' l && !(l.drop 1).isEmpty

/-- Whether a line contains a numbered task start (`\d+\.` followed by at
least one character). -/
def hasNumDot : List Char → Bool
  | [] => false
  | c :: rest =>
    (c.isDigit &&
      (let r := rest.dropWhile Char.isDigit
       headIs '.' r && !(r.drop 1).isEmpty))
    || hasNumDot rest

/-- Line-wise model of `re.findall(r'(\d+\.\s*[^\n]+)((?:\s*-\s*[^\n]+\n*)+)', …)`
(`home.py:221`): a task block is a numbered line followed (blank lines
allowed, as `\s*` matches newlines) by at least one dash line.  The exact
within-line boundaries of the regex are irrelevant to the theorems below,
whose hypotheses fix the extraction result. -/
def blocksOfAux : Nat → List (List Char) → List (List Char × List (List Char))
  | 0, _ => []
  | _, [] => []
  | fuel + 1, line :: rest =>
    if hasNumDot line then
      let region := rest.takeWhile
        (fun l => isDashLine l || (pyStrip l).isEmpty)
      let dashes := region.filter isDashLine
      if dashes.isEmpty then blocksOfAux fuel rest
      else (line, dashes) :: blocksOfAux fuel (rest.drop region.length)
    else blocksOfAux fuel rest

/-- The scan consumes at least one line per step, so the line count bounds
its recursion depth. -/
def blocksOf (lines : List (List Char)) :
    List (List Char × List (List Char)) :=
  blocksOfAux lines.length lines

/-- The task blocks of a plan text. -/
def task_blocks (plan_text : String) : List (List Char × List (List Char)) :=
  blocksOf (pySplitChar '\n' plan_text.data)

/-- `home.py:178-273`.  `plan_result` is the session plan; a falsy plan
(absent or empty) errors out returning `None`; a plan with no identifiable
task blocks warns and returns `False`; otherwise the task-creation loop
raises `TypeError` on its first iteration (see the section comment), caught
as `return False`.  No branch writes a document or a history entry. -/
def create_tasks_from_plan (plan_result : Option String)
    (storage : Storage) (history : List Doc) :
    Option Bool × Storage × List Doc :=
  match plan_result with
  | none => (none, storage, history)
  | some plan_text =>
    if plan_text == "" then (none, storage, history)
    else if (task_blocks plan_text).isEmpty then (some false, storage, history)
    else (some false, storage, history)

end Home

/-! ## Structured plan extraction: `planning.py`, `generate_planning`
(lines 102-131; `home.py:501-535` is identical for the part modelled here)

Search the model response for a fenced ````json` block
(`re.search(r'```json(.*?)```', response, re.DOTALL)`); parse the block
contents (or, absent a fence, the whole stripped response) as JSON after
removing zero-width spaces; on success add `created_at` and return the
parsed dict unchanged — no per-task defaulting happens here.  `json.loads`
is Python's standard JSON parser, modelled below for the JSON subset the
system produces (strings, integers, booleans, null, arrays, objects;
fraction/exponent numbers are floating point and outside the embedding). -/

/-- A parsed Python/JSON value. -/
inductive PyObj where
  | pstr (s : String)
  | pint (n : Int)
  | pbool (b : Bool)
  | pnull
  | parr (xs : List PyObj)
  | pobj (fields : List (String × PyObj))

namespace Json

/-- The four JSON whitespace characters. -/
def isWs (c : Char) : Bool :=
  c == '\n' || c == '\r' || c == '\t' || c == ' '

/-- Decode one hex digit, working on the code point: digits sit at 48-57,
uppercase A-F at 65-70 (value 10 is point 65, hence the offset 55), and
lowercase a-f at 97-102 (offset 87). -/
def hexVal (c : Char) : Option Nat :=
  let n := c.toNat
  if n < 48 then none
  else if n ≤ 57 then some (n - 48)
  else if 65 ≤ n && n ≤ 70 then some (n - 55)
  else if 97 ≤ n && n ≤ 102 then some (n - 87)
  else none

/-- Parse the body of a JSON string (after the opening quote), returning the
decoded characters and the input after the closing quote. -/
def parseStringBody : List Char → Option (List Char × List Char)
  | [] => none
  | '"' :: rest => some ([], rest)
  | '\\' :: 'u' :: h1 :: h2 :: h3 :: h4 :: rest => do
    let v1 ← hexVal h1
    let v2 ← hexVal h2
    let v3 ← hexVal h3
    let v4 ← hexVal h4
    let (cs, r) ← parseStringBody rest
    pure (Char.ofNat (((v1 * 16 + v2) * 16 + v3) * 16 + v4) :: cs, r)
  | '\\' :: e :: rest => do
    let c ←
      if e == '"' then some '"'
      else if e == '\\' then some '\\'
      else if e == '/' then some '/'
      else if e == 'n' then some '\n'
      else if e == 't' then some '\t'
      else if e == 'r' then some '\r'
      else if e == 'b' then some (Char.ofNat 8)
      else if e == 'f' then some (Char.ofNat 12)
      else none
    let (cs, r) ← parseStringBody rest
    pure (c :: cs, r)
  | c :: rest => do
    let (cs, r) ← parseStringBody rest
    pure (c :: cs, r)

/-- Parse a JSON integer (a leading `-` and digits; fraction or exponent
parts would be floats and make the parse fail in this model). -/
def parseIntBody (s : List Char) : Option (Int × List Char) :=
  let (neg, s1) := match s with
    | '-' :: r => (true, r)
    | _ => (false, s)
  let digits := s1.takeWhile Char.isDigit
  let rest := s1.dropWhile Char.isDigit
  if digits.isEmpty then none
  else if headIs '.' rest || headIs 'e' rest || headIs 'E' rest then none
  else
    let n : Nat := digits.foldl (fun acc c => 10 * acc + (c.toNat - 48)) 0
    some (if neg then -(n : Int) else (n : Int), rest)

mutual

/-- Parse one JSON value. -/
def parseValue : Nat → List Char → Option (PyObj × List Char)
  | 0, _ => none
  | fuel + 1, s =>
    match s.dropWhile isWs with
    | '\x7b' :: rest => parseObjBody fuel (rest.dropWhile isWs)
    | '[' :: rest => parseArrBody fuel (rest.dropWhile isWs)
    | '"' :: rest => do
      let (cs, r) ← parseStringBody rest
      pure (PyObj.pstr (String.mk cs), r)
    | 't' :: 'r' :: 'u' :: 'e' :: rest => some (PyObj.pbool true, rest)
    | 'f' :: 'a' :: 'l' :: 's' :: 'e' :: rest => some (PyObj.pbool false, rest)
    | 'n' :: 'u' :: 'l' :: 'l' :: rest => some (PyObj.pnull, rest)
    | s' => do
      let (n, r) ← parseIntBody s'
      pure (PyObj.pint n, r)

/-- Parse an object body after the opening brace (whitespace skipped). -/
def parseObjBody : Nat → List Char → Option (PyObj × List Char)
  | 0, _ => none
  | fuel + 1, s =>
    match s with
    | '\x7d' :: rest => some (PyObj.pobj [], rest)
    | '"' :: rest => do
      let (cs, r1) ← parseStringBody rest
      match r1.dropWhile isWs with
      | ':' :: r2 => do
        let (v, r3) ← parseValue fuel r2
        let (tailObj, r4) ← parseObjTail fuel (r3.dropWhile isWs)
        pure (PyObj.pobj ((String.mk cs, v) :: tailObj), r4)
      | _ => none
    | _ => none

/-- Parse the rest of an object after one member: either `,` and more
members or the closing brace. -/
def parseObjTail : Nat → List Char →
    Option (List (String × PyObj) × List Char)
  | 0, _ => none
  | fuel + 1, s =>
    match s with
    | '\x7d' :: rest => some ([], rest)
    | ',' :: rest =>
      match rest.dropWhile isWs with
      | '"' :: r1 => do
        let (cs, r2) ← parseStringBody r1
        match r2.dropWhile isWs with
        | ':' :: r3 => do
          let (v, r4) ← parseValue fuel r3
          let (tailObj, r5) ← parseObjTail fuel (r4.dropWhile isWs)
          pure ((String.mk cs, v) :: tailObj, r5)
        | _ => none
      | _ => none
    | _ => none

/-- Parse an array body after the opening bracket (whitespace skipped). -/
def parseArrBody : Nat → List Char → Option (PyObj × List Char)
  | 0, _ => none
  | fuel + 1, s =>
    match s with
    | ']' :: rest => some (PyObj.parr [], rest)
    | _ => do
      let (v, r1) ← parseValue fuel s
      let (items, r2) ← parseArrTail fuel (r1.dropWhile isWs)
      pure (PyObj.parr (v :: items), r2)

/-- Parse the rest of an array after one item. -/
def parseArrTail : Nat → List Char → Option (List PyObj × List Char)
  | 0, _ => none
  | fuel + 1, s =>
    match s with
    | ']' :: rest => some ([], rest)
    | ',' :: rest => do
      let (v, r1) ← parseValue fuel rest
      let (items, r2) ← parseArrTail fuel (r1.dropWhile isWs)
      pure (v :: items, r2)
    | _ => none

end

/-- Model of Python `json.loads`: parse one value and require only trailing
whitespace. -/
def json_loads (s : String) : Option PyObj :=
  match parseValue (s.data.length + 1) s.data with
  | some (v, rest) => if (rest.dropWhile isWs).isEmpty then some v else none
  | none => none

end Json

namespace Planning

/-- First-occurrence search used by `re.search(r'```json(.*?)```', …,
re.DOTALL)`: the input after the first occurrence of `pat`. -/
def afterSeq (pat : List Char) : List Char → Option (List Char)
  | [] => none
  | s@(_ :: rest) =>
    if pat.isPrefixOf s then some (s.drop pat.length) else afterSeq pat rest

/-- The part of the input strictly before the first occurrence of `pat`. -/
def beforeSeq (pat : List Char) : List Char → Option (List Char)
  | [] => none
  | s@(c :: rest) =>
    if pat.isPrefixOf s then some []
    else (beforeSeq pat rest).map (fun l => c :: l)

/-- `re.search(r'```json(.*?)```', response, re.DOTALL)`: the (non-greedy)
group between the first ````json` fence and the next ```` ` ```` fence.  A
later fence can only match if the earliest ````json` occurrence has some
```` ` ```` after it, so first-fence-then-first-closer is exactly the
regex's leftmost-shortest match. -/
def find_fenced_json (response : List Char) : Option (List Char) :=
  match afterSeq ("```json".data) response with
  | none => none
  | some after => beforeSeq ("```".data) after

/-- The `json_str` cleaned for parsing (`planning.py:104-112`): the fenced
group if present, else the whole response, stripped, with zero-width spaces
removed. -/
def extract_json_str (response : String) : List Char :=
  let json_str0 :=
    match find_fenced_json response.data with
    | some grp => pyStrip grp
    | none => pyStrip response.data
  json_str0.filter (fun c => !(c == '\u200B'))

/-- `generate_planning`'s response-parsing (`planning.py:102-131`): parse the
cleaned text as JSON and return the dict with `created_at` set to `now`
(`datetime.now().isoformat()`).  A failed parse returns `None`; so does a
non-dict toplevel, whose `data["created_at"] = …` assignment raises
`TypeError` into the enclosing `except`.  No per-task defaulting is
applied (the local `main_title` computed from `data["title"]` is dead
code). -/
def extract_plan (response : String) (now : String) : Option PyObj :=
  match Json.json_loads (String.mk (extract_json_str response)) with
  | some (PyObj.pobj fields) =>
    some (PyObj.pobj (dictInsert fields "created_at" (PyObj.pstr now)))
  | some _ => none
  | none => none

/-- The raw text of spec test 2. -/
def c4_input : String :=
  "prose ```json\n\x7b\"title\":\"T\",\"tasks\":[\x7b\"title\":\"A\"\x7d]\x7d\n``` trailing"

end Planning

/-! ## Module registry: `geral/module_registry.py`

`ModuleRegistry` keeps a name-keyed dict of `ModuleInfo`; `load_module`
recursively loads dependencies, imports the module and extracts the
components named by its `__all__` declaration.  `importlib.import_module`
is the external collaborator: it is modelled as a table from import-path
strings to module namespaces (absent entry = `ImportError`); a namespace's
attributes are opaque handles.  The `sys.path` insertion
(`module_registry.py:146-147`) has no observable effect on the registry
state and is not modelled.  The unbounded mutual recursion of the
dependency loop is given a fuel parameter: `none` models a Python
`RecursionError` (the code has no cycle detection). -/

namespace ModuleRegistry

/-- A Python module namespace as `importlib` returns it: its attributes
(opaque handles) and its `__all__` declaration when present. -/
structure PyModule where
  attrs : List (String × Nat)
  export_decl : Option (List String)
  deriving DecidableEq, Repr

/-- `ModuleInfo` (`module_registry.py:33`): the fields of the dataclass
(with `__post_init__` applied: `None` defaults already replaced by empty
containers).  `service_url`/`port` are inert metadata never read by any
operation and are omitted. -/
structure ModuleInfo where
  name : String
  path : String
  description : String
  version : String
  dependencies : List String
  is_loaded : Bool
  module_instance : Option PyModule
  exported_components : List (String × Nat)
  interfaces : List (String × Nat)
  deriving DecidableEq, Repr

/-- `self.modules`: the name-keyed registry dict. -/
abbrev RegState := List (String × ModuleInfo)

/-- The import environment: import path → imported namespace; an absent
path raises `ImportError`. -/
abbrev ImportTable := List (String × PyModule)

/-- `register_module` (`module_registry.py:76`): insert or overwrite (with
a warning) under the module's name; always returns `True`. -/
def register_module (st : RegState) (module_info : ModuleInfo) :
    Bool × RegState :=
  (true, dictInsert st module_info.name module_info)

/-- The `ModuleInfo` built by `discover_modules` (`module_registry.py:113`)
for a subdirectory `item` of the services directory that contains an
`__init__.py`. -/
def discovered_info (item item_path : String) : ModuleInfo :=
  { name := item
    path := item_path
    description := "Módulo '" ++ item ++ "' (descoberto automaticamente)"
    version := "0.1.0"
    dependencies := []
    is_loaded := false
    module_instance := none
    exported_components := []
    interfaces := [] }

/-- `discover_modules` (`module_registry.py:95`): the filesystem scan is
the external input `found` (subdirectory name and path for each package
with an `__init__.py`, in directory-listing order); each is registered and
its name collected. -/
def discover_modules (st : RegState) (found : List (String × String)) :
    List String × RegState :=
  found.foldl
    (fun acc nm =>
      (acc.1 ++ [nm.1], (register_module acc.2 (discovered_info nm.1 nm.2)).2))
    ([], st)

/-- `os.path.basename(os.path.dirname(path))`: the next-to-last `/`-part. -/
def parent_dir_of (path : String) : String :=
  match (pySplitChar '/' path.data).reverse with
  | _ :: parent :: _ => String.mk parent
  | _ => ""

/-- The import path (`module_registry.py:162-168`): modules under
`servicos_modularizados` import as `<parent_dir>.<name>`, others as their
bare name. -/
def import_path_of (info : ModuleInfo) : String :=
  if containsSeq ("servicos_modularizados".data) info.path.data then
    parent_dir_of info.path ++ "." ++ info.name
  else info.name

/-- The export extraction (`module_registry.py:174-178`): for each name in
`__all__` that the namespace has, store the attribute in
`exported_components`. -/
def extract_exports (m : PyModule) (existing : List (String × Nat)) :
    List (String × Nat) :=
  match m.export_decl with
  | none => existing
  | some names =>
    names.foldl
      (fun comps component_name =>
        match m.attrs.lookup component_name with
        | some component => dictInsert comps component_name component
        | none => comps)
      existing

/-- The successful-import updates (`module_registry.py:171-180`): set
`module_instance`, populate `exported_components`, mark loaded. -/
def set_loaded (st : RegState) (module_name : String) (m : PyModule) :
    RegState :=
  alistModify st module_name
    (fun info =>
      { info with
        module_instance := some m
        exported_components := extract_exports m info.exported_components
        is_loaded := true })

/-- The dependency-loop test (`module_registry.py:152`):
`dep not in self.modules or not self.modules[dep].is_loaded`. -/
def depNeedsLoad (st : RegState) (dep : String) : Bool :=
  match st.lookup dep with
  | none => true
  | some info => !info.is_loaded

mutual

/-- `load_module` (`module_registry.py:126`): fail if unregistered; no-op
success if loaded; else load the dependencies depth-first, import, extract
exports and mark loaded.  `fuel` bounds the recursion depth; `none` is a
Python `RecursionError`.  In any returning execution the dependency loop
never touches the entry of `module_name` itself (a cycle back into it
recurses forever instead), so updating the current entry models Python's
mutation of the `module_info` object captured at entry. -/
def load_module (IT : ImportTable) : Nat → RegState → String →
    Option (Bool × RegState)
  | 0, _, _ => none
  | fuel + 1, st, module_name =>
    match st.lookup module_name with
    | none => some (false, st)
    | some module_info =>
      if module_info.is_loaded then some (true, st)
      else
        match load_deps IT fuel st module_info.dependencies with
        | none => none
        | some (false, st1) => some (false, st1)
        | some (true, st1) =>
          match IT.lookup (import_path_of module_info) with
          | none => some (false, st1)
          | some module_instance =>
            some (true, set_loaded st1 module_name module_instance)
  termination_by structural fuel _ _ => fuel

/-- The dependency loop (`module_registry.py:150-158`): load each
not-yet-loaded dependency in order, aborting on the first failure. -/
def load_deps (IT : ImportTable) : Nat → RegState → List String →
    Option (Bool × RegState)
  | 0, _, _ => none
  | _ + 1, st, [] => some (true, st)
  | fuel + 1, st, dep :: rest =>
    if depNeedsLoad st dep then
      match load_module IT fuel st dep with
      | none => none
      | some (false, st1) => some (false, st1)
      | some (true, st1) => load_deps IT fuel st1 rest
    else load_deps IT fuel st rest
  termination_by structural fuel _ _ => fuel

end

/-- `get_module` (`module_registry.py:191`). -/
def get_module (st : RegState) (module_name : String) : Option ModuleInfo :=
  st.lookup module_name

/-- `get_component` (`module_registry.py:203`): `None` unless the module is
registered and loaded; otherwise look the component up among the exported
components. -/
def get_component (st : RegState) (module_name component_name : String) :
    Option Nat :=
  match get_module st module_name with
  | none => none
  | some module_info =>
    if !module_info.is_loaded then none
    else module_info.exported_components.lookup component_name

/-- `list_available_modules` (`module_registry.py:220`). -/
def list_available_modules (st : RegState) : List String :=
  st.map Prod.fst

/-- `list_loaded_modules` (`module_registry.py:229`). -/
def list_loaded_modules (st : RegState) : List String :=
  (st.filter (fun e => e.2.is_loaded)).map Prod.fst

/-- Whether the registry currently records `n` as loaded. -/
def isLoadedB (st : RegState) (n : String) : Bool :=
  match st.lookup n with
  | some info => info.is_loaded
  | none => false

/-! ### What a load preserves

Loading never registers or unregisters a module, never changes a module's
dependency list or path, and never unloads a loaded module. -/

def Pres (st st' : RegState) : Prop :=
  (∀ n, st.lookup n = none → st'.lookup n = none) ∧
  (∀ n info, st.lookup n = some info → ∃ info',
    st'.lookup n = some info' ∧
    info'.dependencies = info.dependencies ∧
    info'.path = info.path ∧
    (info.is_loaded = true → info'.is_loaded = true))

/-! ### No returning execution loads a module while its own load is active

The call stack of a load is a chain of registered modules connected by
dependency edges, all unloaded when their frames were entered.  A returning
execution can never flag such an active module: flagging it would require
its own dependency loop to have succeeded, which would have flagged its
cycle-successor first — the code instead recurses forever on a cycle of
unloaded modules. -/

/-- `b` is a declared dependency of the registered module `a`. -/
def depOf (st : RegState) (a b : String) : Prop :=
  ∃ info, st.lookup a = some info ∧ b ∈ info.dependencies

/-- `A` is a chain of dependency edges whose last element has `t` as a
direct dependency. -/
def chainInto (st : RegState) : List String → String → Prop
  | [], _ => True
  | [a], t => depOf st a t
  | a :: b :: rest, t => depOf st a b ∧ chainInto st (b :: rest) t

/-! ### Loaded modules always have loaded dependencies -/

/-- Every registry entry that is flagged loaded has all its declared
dependencies loaded. -/
def LoadedClosed (st : RegState) : Prop :=
  ∀ e ∈ st, e.2.is_loaded = true → ∀ d ∈ e.2.dependencies,
    isLoadedB st d = true

instance (st : RegState) : Decidable (LoadedClosed st) := by
  unfold LoadedClosed
  infer_instance

/-- Transitive dependency reachability over the registry's declared
dependency lists. -/
inductive Reaches (st : RegState) (root : String) : String → Prop
  | direct (d : String) (info : ModuleInfo) :
      st.lookup root = some info → d ∈ info.dependencies → Reaches st root d
  | step (m d : String) (info : ModuleInfo) : Reaches st root m →
      st.lookup m = some info → d ∈ info.dependencies → Reaches st root d

/-! ### Concrete fixtures -/

/-- An imported namespace with no attributes and no `__all__`. -/
def emptyModule : PyModule := { attrs := [], export_decl := none }

/-- A freshly registered, unloaded `ModuleInfo`. -/
def freshInfo (n path : String) (deps : List String) : ModuleInfo :=
  { name := n
    path := path
    description := ""
    version := "0.1.0"
    dependencies := deps
    is_loaded := false
    module_instance := none
    exported_components := []
    interfaces := [] }

def c5InfoA : ModuleInfo := freshInfo "A" "/app/modules/A" ["B"]

def c5InfoB : ModuleInfo := freshInfo "B" "/app/modules/B" ["C"]

def c5InfoC : ModuleInfo := freshInfo "C" "/app/modules/C" []

/-- A registry where A depends on B depends on C, nothing loaded. -/
def c5St : RegState := [("A", c5InfoA), ("B", c5InfoB), ("C", c5InfoC)]

def c5IT : ImportTable :=
  [("A", emptyModule), ("B", emptyModule), ("C", emptyModule)]

def c5DoneA : ModuleInfo :=
  { c5InfoA with is_loaded := true, module_instance := some emptyModule }

def c5DoneB : ModuleInfo :=
  { c5InfoB with is_loaded := true, module_instance := some emptyModule }

def c5DoneC : ModuleInfo :=
  { c5InfoC with is_loaded := true, module_instance := some emptyModule }

/-- The registry after `load_module … "A"`. -/
def c5Final : RegState := [("A", c5DoneA), ("B", c5DoneB), ("C", c5DoneC)]

/-! ### Export encapsulation -/

/-- The declared export list of an (optional) module namespace. -/
def optExports (mi : Option PyModule) : List String :=
  match mi with
  | some m => m.export_decl.getD []
  | none => []

/-- A registry entry only exposes components named by its module's declared
export list, and an unloaded entry exposes nothing. -/
def ExportOK (info : ModuleInfo) : Prop :=
  (∀ kv ∈ info.exported_components, kv.1 ∈ optExports info.module_instance) ∧
  (info.is_loaded = false → info.exported_components = [])

def RegInv (st : RegState) : Prop := ∀ e ∈ st, ExportOK e.2

instance (info : ModuleInfo) : Decidable (ExportOK info) := by
  unfold ExportOK
  infer_instance

instance (st : RegState) : Decidable (RegInv st) := by
  unfold RegInv
  infer_instance

/-- A loaded module whose namespace holds both an exported `render` and an
unexported `_internal` attribute; only `render` is declared in `__all__`. -/
def c2Module : PyModule :=
  { attrs := [("render", 11), ("_internal", 22)]
    export_decl := some ["render"] }

def c2Info : ModuleInfo :=
  { name := "mod"
    path := "/app/servicos_modularizados/mod"
    description := ""
    version := "0.1.0"
    dependencies := []
    is_loaded := true
    module_instance := some c2Module
    exported_components := [("render", 11)]
    interfaces := [] }

def c2St : RegState := [("mod", c2Info)]

def cycInfoX : ModuleInfo := freshInfo "X" "/app/modules/X" ["Y"]

def cycInfoY : ModuleInfo := freshInfo "Y" "/app/modules/Y" ["X"]

/-- A registry with a two-module dependency cycle: X depends on Y and Y
depends on X, neither loaded — the spec's own cycle-detection scenario. -/
def cycSt : RegState := [("X", cycInfoX), ("Y", cycInfoY)]

def cycIT : ImportTable := [("X", emptyModule), ("Y", emptyModule)]

end ModuleRegistry

/-! ## Theorems -/

theorem lookup_dictInsert_self (d : List (String × α)) (k : String) (v : α) :
    (dictInsert d k v).lookup k = some v := by
  induction d with
  | nil => simp [dictInsert, List.lookup]
  | cons kv tl ih =>
    obtain ⟨a, b⟩ := kv
    by_cases h : a = k
    · subst h
      simp [dictInsert, List.lookup]
    · have h1 : (a == k) = false := by simp [beq_iff_eq, h]
      have h2 : (k == a) = false := by
        simp only [beq_eq_false_iff_ne, ne_eq]
        exact fun hh => h hh.symm
      simp [dictInsert, List.lookup, h1, h2, ih]

theorem lookup_dictInsert_ne (d : List (String × α)) (k k' : String) (v : α)
    (hne : k' ≠ k) : (dictInsert d k v).lookup k' = d.lookup k' := by
  induction d with
  | nil =>
    have h1 : (k' == k) = false := by simp [beq_eq_false_iff_ne, hne]
    simp [dictInsert, List.lookup, h1]
  | cons kv tl ih =>
    obtain ⟨a, b⟩ := kv
    by_cases h : a = k
    · subst h
      have h1 : (k' == a) = false := by simp [beq_eq_false_iff_ne, hne]
      simp [dictInsert, List.lookup, h1]
    · have h1 : (a == k) = false := by simp [beq_iff_eq, h]
      by_cases h2 : k' = a
      · subst h2
        simp [dictInsert, List.lookup, h1]
      · have h3 : (k' == a) = false := by simp [beq_eq_false_iff_ne, h2]
        simp [dictInsert, List.lookup, h1, h3, ih]

theorem lookup_alistModify_self (d : List (String × β)) (k : String)
    (f : β → β) : (alistModify d k f).lookup k = (d.lookup k).map f := by
  induction d with
  | nil => simp [alistModify]
  | cons kv tl ih =>
    obtain ⟨a, b⟩ := kv
    by_cases h : a = k
    · subst h
      simp [alistModify, List.lookup]
    · have h1 : (a == k) = false := by simp [beq_iff_eq, h]
      have h2 : (k == a) = false := by
        simp only [beq_eq_false_iff_ne, ne_eq]
        exact fun hh => h hh.symm
      simp [alistModify, List.lookup, h1, h2, ih]

theorem lookup_alistModify_ne (d : List (String × β)) (k k' : String)
    (f : β → β) (hne : k' ≠ k) :
    (alistModify d k f).lookup k' = d.lookup k' := by
  induction d with
  | nil => simp [alistModify]
  | cons kv tl ih =>
    obtain ⟨a, b⟩ := kv
    by_cases h : a = k
    · subst h
      have h1 : (k' == a) = false := by simp [beq_eq_false_iff_ne, hne]
      simp [alistModify, List.lookup, h1]
    · have h1 : (a == k) = false := by simp [beq_iff_eq, h]
      by_cases h2 : k' = a
      · subst h2
        simp [alistModify, List.lookup, h1]
      · have h3 : (k' == a) = false := by simp [beq_eq_false_iff_ne, h2]
        simp [alistModify, List.lookup, h1, h3, ih]

theorem lookup_alistRemove_self (d : List (String × β)) (k : String) :
    (alistRemove d k).lookup k = none := by
  induction d with
  | nil => simp [alistRemove]
  | cons kv tl ih =>
    obtain ⟨a, b⟩ := kv
    by_cases h : a = k
    · subst h
      simp [alistRemove, List.filter] at ih ⊢
      exact ih
    · have h1 : (a == k) = false := by simp [beq_iff_eq, h]
      have h2 : (k == a) = false := by
        simp only [beq_eq_false_iff_ne, ne_eq]
        exact fun hh => h hh.symm
      simp only [alistRemove, List.filter, h1, Bool.not_false]
      simp only [List.lookup, h2]
      exact ih

theorem lookup_alistRemove_ne (d : List (String × β)) (k k' : String)
    (hne : k' ≠ k) : (alistRemove d k).lookup k' = d.lookup k' := by
  induction d with
  | nil => simp [alistRemove]
  | cons kv tl ih =>
    obtain ⟨a, b⟩ := kv
    by_cases h : a = k
    · subst h
      have h1 : (k' == a) = false := by simp [beq_eq_false_iff_ne, hne]
      simp only [alistRemove, List.filter, beq_self_eq_true, Bool.not_true]
      simp only [alistRemove] at ih
      rw [ih]
      simp [List.lookup, h1]
    · have h1 : (a == k) = false := by simp [beq_iff_eq, h]
      by_cases h2 : k' = a
      · subst h2
        simp [alistRemove, List.filter, h1, List.lookup]
      · have h3 : (k' == a) = false := by simp [beq_eq_false_iff_ne, h2]
        simp only [alistRemove, List.filter, h1, Bool.not_false]
        simp only [List.lookup, h3]
        simpa [alistRemove] using ih

theorem alistRemove_of_absent (d : List (String × β)) (k : String)
    (h : d.lookup k = none) : alistRemove d k = d := by
  induction d with
  | nil => simp [alistRemove]
  | cons kv tl ih =>
    obtain ⟨a, b⟩ := kv
    by_cases hk : k = a
    · subst hk
      simp [List.lookup] at h
    · have h1 : (k == a) = false := by simp [beq_eq_false_iff_ne, hk]
      have h2 : (a == k) = false := by
        simp only [beq_eq_false_iff_ne, ne_eq]
        exact fun hh => hk hh.symm
      simp only [List.lookup, h1] at h
      simp only [alistRemove, List.filter, h2, Bool.not_false]
      show (a, b) :: alistRemove tl k = (a, b) :: tl
      rw [ih h]

theorem mem_alistRemove (d : List (String × β)) (k : String) (kv : String × β) :
    kv ∈ alistRemove d k ↔ kv ∈ d ∧ kv.1 ≠ k := by
  simp [alistRemove, List.mem_filter]

namespace LocalStorageService

theorem get_collection_of_present (storage : Storage) (cn : String)
    (h : (storage.lookup cn).isSome) : get_collection storage cn = (cn, storage) := by
  simp [get_collection, h]

end LocalStorageService

namespace TaskService

open LocalStorageService

end TaskService

/-! ### Association-list helper lemmas used by the store proofs -/

theorem lookup_some_mem {d : List (String × β)} {k : String} {v : β}
    (h : d.lookup k = some v) : (k, v) ∈ d := by
  induction d with
  | nil => simp [List.lookup] at h
  | cons kv tl ih =>
    obtain ⟨a, b⟩ := kv
    by_cases hk : k = a
    · subst hk
      simp [List.lookup] at h
      simp [h]
    · have h1 : (k == a) = false := by simp [beq_eq_false_iff_ne, hk]
      simp only [List.lookup, h1] at h
      exact List.mem_cons_of_mem _ (ih h)

theorem mem_nodupkeys_lookup {d : List (String × β)} {k : String} {v : β}
    (hnd : (d.map Prod.fst).Nodup) (h : (k, v) ∈ d) : d.lookup k = some v := by
  induction d with
  | nil => simp at h
  | cons kv tl ih =>
    obtain ⟨a, b⟩ := kv
    simp only [List.map_cons, List.nodup_cons] at hnd
    rcases List.mem_cons.mp h with h0 | h0
    · rw [Prod.mk.injEq] at h0
      obtain ⟨h1, h2⟩ := h0
      subst h1; subst h2
      simp [List.lookup]
    · by_cases hk : k = a
      · subst hk
        exact absurd (List.mem_map_of_mem Prod.fst h0) hnd.1
      · have h1 : (k == a) = false := by simp [beq_eq_false_iff_ne, hk]
        simp only [List.lookup, h1]
        exact ih hnd.2 h0

theorem keys_alistModify (d : List (String × β)) (k : String) (f : β → β) :
    (alistModify d k f).map Prod.fst = d.map Prod.fst := by
  induction d with
  | nil => simp [alistModify]
  | cons kv tl ih =>
    by_cases h : kv.1 == k
    · simp [alistModify, h]
    · simp only [Bool.not_eq_true] at h
      simp [alistModify, h, ih]

theorem mem_alistModify_of_ne {d : List (String × β)} {k : String}
    {f : β → β} {kv : String × β} (hne : kv.1 ≠ k) :
    kv ∈ alistModify d k f ↔ kv ∈ d := by
  induction d with
  | nil => simp [alistModify]
  | cons e tl ih =>
    by_cases h : e.1 == k
    · have hk : e.1 = k := by simpa [beq_iff_eq] using h
      simp only [alistModify, h, if_true]
      constructor
      · intro hm
        rcases List.mem_cons.mp hm with h0 | h0
        · have hfst : kv.1 = e.1 := by rw [h0]
          exact absurd (hk ▸ hfst) hne
        · exact List.mem_cons_of_mem _ h0
      · intro hm
        rcases List.mem_cons.mp hm with h0 | h0
        · have hfst : kv.1 = e.1 := by rw [h0]
          exact absurd (hk ▸ hfst) hne
        · exact List.mem_cons_of_mem _ h0
    · simp only [Bool.not_eq_true] at h
      simp [alistModify, h, ih]

theorem alistModify_of_absent {d : List (String × β)} {k : String}
    {f : β → β} (h : d.lookup k = none) : alistModify d k f = d := by
  induction d with
  | nil => simp [alistModify]
  | cons kv tl ih =>
    obtain ⟨a, b⟩ := kv
    by_cases hk : k = a
    · subst hk
      simp [List.lookup] at h
    · have h1 : (k == a) = false := by simp [beq_eq_false_iff_ne, hk]
      have h2 : (a == k) = false := by
        simp only [beq_eq_false_iff_ne, ne_eq]
        exact fun hh => hk hh.symm
      simp only [List.lookup, h1] at h
      simp [alistModify, h2, ih h]

theorem alistModify_lookup_fix {d : List (String × β)} {k : String}
    {f : β → β} {v : β} (h : d.lookup k = some v) (hf : f v = v) :
    alistModify d k f = d := by
  induction d with
  | nil => simp [List.lookup] at h
  | cons kv tl ih =>
    obtain ⟨a, b⟩ := kv
    by_cases hk : k = a
    · subst hk
      simp only [List.lookup, beq_self_eq_true] at h
      have hb : b = v := by simpa using h
      subst hb
      simp [alistModify, hf]
    · have h1 : (k == a) = false := by simp [beq_eq_false_iff_ne, hk]
      have h2 : (a == k) = false := by
        simp only [beq_eq_false_iff_ne, ne_eq]
        exact fun hh => hk hh.symm
      simp only [List.lookup, h1] at h
      simp [alistModify, h2, ih h]

namespace TaskService

open LocalStorageService

theorem pyGetStrD_injectId (kv : String × Doc) (dflt : String) :
    pyGetStrD (injectId kv) "id" dflt = kv.1 := by
  simp [pyGetStrD, injectId, lookup_dictInsert_self]

theorem lookup_injectId_ne (kv : String × Doc) (key : String)
    (h : key ≠ "id") : (injectId kv).lookup key = kv.2.lookup key := by
  simp [injectId, lookup_dictInsert_ne _ _ _ _ h]

theorem get_documents_todos (storage : Storage) (coll : List (String × Doc))
    (h : storage.lookup "todos" = some coll) :
    get_documents storage "todos" = (coll.map injectId, storage) := by
  have hp : (storage.lookup "todos").isSome := by simp [h]
  have hne : (("todos" : String) == "") = false := by decide
  simp [get_documents, get_collection_of_present _ _ hp, h, hne, injectId]

theorem delete_document_todos (storage : Storage) (coll : List (String × Doc))
    (id : String) (h : storage.lookup "todos" = some coll) :
    delete_document storage "todos" id =
      ((coll.lookup id).isSome,
       alistModify storage "todos" (fun ds => alistRemove ds id)) := by
  have hp : (storage.lookup "todos").isSome := by simp [h]
  have hne : (("todos" : String) == "") = false := by decide
  cases hid : coll.lookup id with
  | some d =>
    simp [delete_document, get_collection_of_present _ _ hp, h, hne, hid]
  | none =>
    have hfix : alistModify storage "todos" (fun ds => alistRemove ds id)
        = storage :=
      alistModify_lookup_fix h (alistRemove_of_absent coll id hid)
    simp [delete_document, get_collection_of_present _ _ hp, h, hne, hid, hfix]

theorem update_document_todos (storage : Storage) (coll : List (String × Doc))
    (id : String) (u : Doc) (h : storage.lookup "todos" = some coll) :
    update_document storage "todos" id u =
      ((coll.lookup id).isSome,
       alistModify storage "todos"
         (fun ds => alistModify ds id (fun doc => dictMerge doc u))) := by
  have hp : (storage.lookup "todos").isSome := by simp [h]
  have hne : (("todos" : String) == "") = false := by decide
  cases hid : coll.lookup id with
  | some d =>
    simp [update_document, get_collection_of_present _ _ hp, h, hne, hid]
  | none =>
    have hfix : alistModify storage "todos"
        (fun ds => alistModify ds id (fun doc => dictMerge doc u)) = storage :=
      alistModify_lookup_fix h (alistModify_of_absent hid)
    simp [update_document, get_collection_of_present _ _ hp, h, hne, hid, hfix]

theorem lookup_foldRemove (I : List String) (coll : List (String × Doc))
    (k : String) :
    (foldRemove I coll).lookup k = if k ∈ I then none else coll.lookup k := by
  induction I generalizing coll with
  | nil => simp [foldRemove]
  | cons id rest ih =>
    simp only [foldRemove, List.foldl_cons]
    rw [show List.foldl (fun ds id => alistRemove ds id) (alistRemove coll id)
          rest = foldRemove rest (alistRemove coll id) from rfl, ih]
    by_cases hk : k = id
    · subst hk
      simp [lookup_alistRemove_self]
    · simp [List.mem_cons, hk, lookup_alistRemove_ne _ _ _ hk]

theorem mem_foldRemove (I : List String) (coll : List (String × Doc))
    (kv : String × Doc) :
    kv ∈ foldRemove I coll ↔ kv ∈ coll ∧ kv.1 ∉ I := by
  induction I generalizing coll with
  | nil => simp [foldRemove]
  | cons id rest ih =>
    simp only [foldRemove, List.foldl_cons]
    rw [show List.foldl (fun ds id => alistRemove ds id) (alistRemove coll id)
          rest = foldRemove rest (alistRemove coll id) from rfl, ih,
      mem_alistRemove]
    simp only [List.mem_cons]
    constructor
    · rintro ⟨⟨h1, h2⟩, h3⟩
      exact ⟨h1, by rintro (h | h) <;> [exact h2 h; exact h3 h]⟩
    · rintro ⟨h1, h2⟩
      exact ⟨⟨h1, fun h => h2 (Or.inl h)⟩, fun h => h2 (Or.inr h)⟩

theorem get_subtasks_todos (storage : Storage) (coll : List (String × Doc))
    (task_id : String) (h : storage.lookup "todos" = some coll) :
    get_subtasks storage task_id
      = (((coll.map injectId).filter (parentMatch task_id)).mergeSort orderLe,
         storage) := by
  simp only [get_subtasks, collection_name,
    get_documents_todos storage coll h]
  rfl

theorem foldl_delete_storage (I : List String) (storage : Storage)
    (coll : List (String × Doc)) (h : storage.lookup "todos" = some coll) :
    (I.foldl (fun st id => (delete_document st "todos" id).2) storage).lookup
        "todos" = some (foldRemove I coll) := by
  induction I generalizing storage coll with
  | nil => simpa [foldRemove] using h
  | cons id rest ih =>
    simp only [List.foldl_cons, foldRemove]
    have hstep := delete_document_todos storage coll id h
    have h2 : ((delete_document storage "todos" id).2).lookup "todos"
        = some (alistRemove coll id) := by
      rw [hstep]
      simpa using lookup_alistModify_self storage "todos"
        (fun ds => alistRemove ds id) ▸ (by rw [h]; rfl :
          (storage.lookup "todos").map (fun ds => alistRemove ds id)
            = some (alistRemove coll id))
    exact ih _ _ h2

theorem subtask_ids_sound (coll : List (String × Doc)) (task_id : String)
    (x : String)
    (hx : x ∈ (((coll.map injectId).filter
        (parentMatch task_id)).mergeSort orderLe).map
          (fun s => pyGetStrD s "id" "")) :
    ∃ kv ∈ coll, kv.1 = x ∧
      kv.2.lookup "parent_id" = some (PyVal.vstr task_id) := by
  obtain ⟨s, hs, hgs⟩ := List.mem_map.mp hx
  have hs' := List.mem_mergeSort.mp hs
  obtain ⟨hsmem, hps⟩ := List.mem_filter.mp hs'
  obtain ⟨kv, hkv, hinj⟩ := List.mem_map.mp hsmem
  subst hinj
  refine ⟨kv, hkv, ?_, ?_⟩
  · rw [← hgs, pyGetStrD_injectId]
  · have hne : ("parent_id" : String) ≠ "id" := by decide
    have := (beq_iff_eq ..).mp hps
    rwa [lookup_injectId_ne _ _ hne] at this

theorem subtask_ids_complete (coll : List (String × Doc)) (task_id : String)
    (kv : String × Doc) (hkv : kv ∈ coll)
    (hm : kv.2.lookup "parent_id" = some (PyVal.vstr task_id)) :
    kv.1 ∈ (((coll.map injectId).filter
        (parentMatch task_id)).mergeSort orderLe).map
          (fun s => pyGetStrD s "id" "") := by
  have hne : ("parent_id" : String) ≠ "id" := by decide
  refine List.mem_map.mpr ⟨injectId kv, ?_, pyGetStrD_injectId kv ""⟩
  refine List.mem_mergeSort.mpr
    (List.mem_filter.mpr ⟨List.mem_map_of_mem _ hkv, ?_⟩)
  simp [parentMatch, lookup_injectId_ne _ _ hne, hm]

/-- C6: deleting a persisted parent task through
`TaskService.delete_task_with_subtasks` removes the parent document and every
document whose `parent_id` equals the parent's id; afterwards no subtask of
that parent is queryable (`get_subtasks` returns `[]`), unrelated documents
are untouched, and the operation reports success. -/
theorem delete_task_cascade
    (storage : Storage) (coll : List (String × Doc)) (task_id : String)
    (parentDoc : Doc)
    (h1 : storage.lookup "todos" = some coll)
    (h2 : (coll.map Prod.fst).Nodup)
    (h3 : coll.lookup task_id = some parentDoc)
    (h4 : parentDoc.lookup "parent_id" = none) :
    (delete_task_with_subtasks storage task_id).1 = true ∧
    ∃ coll',
      ((delete_task_with_subtasks storage task_id).2).lookup "todos"
          = some coll' ∧
      coll'.lookup task_id = none ∧
      (∀ kv ∈ coll', kv.2.lookup "parent_id" ≠ some (PyVal.vstr task_id)) ∧
      (∀ kv ∈ coll, kv.1 ≠ task_id →
        kv.2.lookup "parent_id" ≠ some (PyVal.vstr task_id) → kv ∈ coll') ∧
      (get_subtasks (delete_task_with_subtasks storage task_id).2 task_id).1
          = [] := by
  have hsubs := get_subtasks_todos storage coll task_id h1
  set subs : List Doc :=
    ((coll.map injectId).filter (parentMatch task_id)).mergeSort orderLe
    with hsubs_def
  set I : List String := subs.map (fun s => pyGetStrD s "id" "") with hI
  have hfold :
      delete_task_with_subtasks storage task_id
        = delete_document
            (I.foldl (fun st id => (delete_document st "todos" id).2) storage)
            "todos" task_id := by
    rw [delete_task_with_subtasks, hsubs]
    show delete_document
        (subs.foldl
          (fun st s =>
            (delete_document st collection_name (pyGetStrD s "id" "")).2)
          storage)
        collection_name task_id = _
    rw [hI, List.foldl_map]
    rfl
  have hst2 := foldl_delete_storage I storage coll h1
  have hnotin : task_id ∉ I := by
    intro hin
    obtain ⟨kv, hkv, hk1, hm⟩ := subtask_ids_sound coll task_id task_id hin
    have hlk : coll.lookup kv.1 = some kv.2 := mem_nodupkeys_lookup h2 hkv
    rw [hk1, h3] at hlk
    have heq : kv.2 = parentDoc := by simpa using hlk.symm
    rw [heq, h4] at hm
    exact Option.noConfusion hm
  have hlk2 : (foldRemove I coll).lookup task_id = some parentDoc := by
    rw [lookup_foldRemove, if_neg hnotin, h3]
  have hdel := delete_document_todos
    (I.foldl (fun st id => (delete_document st "todos" id).2) storage)
    (foldRemove I coll) task_id hst2
  have hcoll' :
      ((delete_task_with_subtasks storage task_id).2).lookup "todos"
        = some (alistRemove (foldRemove I coll) task_id) := by
    rw [hfold, hdel]
    have hmod := lookup_alistModify_self
      (I.foldl (fun st id => (delete_document st "todos" id).2) storage)
      "todos" (fun ds => alistRemove ds task_id)
    show (alistModify _ "todos" _).lookup "todos" = _
    rw [hmod, hst2]
    rfl
  constructor
  · rw [hfold, hdel]
    simp [hlk2]
  · refine ⟨alistRemove (foldRemove I coll) task_id, hcoll', ?_, ?_, ?_, ?_⟩
    · exact lookup_alistRemove_self _ _
    · intro kv hkv hm
      have h5 := (mem_alistRemove _ _ _).mp hkv
      have h6 := (mem_foldRemove _ _ _).mp h5.1
      exact h6.2 (subtask_ids_complete coll task_id kv h6.1 hm)
    · intro kv hkv hne hm
      have hni : kv.1 ∉ I := by
        intro hin
        obtain ⟨kv', hkv', hk1, hm'⟩ := subtask_ids_sound coll task_id kv.1 hin
        have e1 : coll.lookup kv.1 = some kv.2 := mem_nodupkeys_lookup h2 hkv
        have e2 : coll.lookup kv'.1 = some kv'.2 := mem_nodupkeys_lookup h2 hkv'
        rw [hk1, e1] at e2
        have heq : kv.2 = kv'.2 := by simpa using e2
        rw [← heq] at hm'
        exact hm hm'
      exact (mem_alistRemove _ _ _).mpr
        ⟨(mem_foldRemove _ _ _).mpr ⟨hkv, hni⟩, hne⟩
    · rw [get_subtasks_todos _ _ _ hcoll']
      have hempty :
          ((alistRemove (foldRemove I coll) task_id).map injectId).filter
            (parentMatch task_id) = [] := by
        rw [List.filter_eq_nil_iff]
        intro s hsmem hps
        obtain ⟨kv, hkv, hinj⟩ := List.mem_map.mp hsmem
        subst hinj
        have hne : ("parent_id" : String) ≠ "id" := by decide
        have hm := (beq_iff_eq ..).mp hps
        rw [lookup_injectId_ne _ _ hne] at hm
        have h5 := (mem_alistRemove _ _ _).mp hkv
        have h6 := (mem_foldRemove _ _ _).mp h5.1
        exact h6.2 (subtask_ids_complete coll task_id kv h6.1 hm)
      rw [hempty]
      simp

theorem mergeUpd_eq (now : PyVal) (d : Doc) :
    mergeUpd now d
      = dictInsert (dictInsert d "completed" (PyVal.vbool true))
          "completed_at" now := by
  simp [mergeUpd, dictMerge, updDoc]

theorem mergeUpd_completed (now : PyVal) (d : Doc) :
    (mergeUpd now d).lookup "completed" = some (PyVal.vbool true) := by
  rw [mergeUpd_eq]
  rw [lookup_dictInsert_ne _ _ _ _ (by decide : ("completed" : String) ≠ "completed_at")]
  exact lookup_dictInsert_self _ _ _

theorem mergeUpd_completed_at (now : PyVal) (d : Doc) :
    (mergeUpd now d).lookup "completed_at" = some now := by
  rw [mergeUpd_eq]
  exact lookup_dictInsert_self _ _ _

theorem mergeUpd_other (now : PyVal) (d : Doc) (key : String)
    (h1 : key ≠ "completed") (h2 : key ≠ "completed_at") :
    (mergeUpd now d).lookup key = d.lookup key := by
  rw [mergeUpd_eq, lookup_dictInsert_ne _ _ _ _ h2,
    lookup_dictInsert_ne _ _ _ _ h1]

theorem lookup_foldUpd (now : PyVal) (I : List String)
    (coll : List (String × Doc)) (k : String) (hnd : I.Nodup) :
    (foldUpd now I coll).lookup k
      = if k ∈ I then (coll.lookup k).map (mergeUpd now) else coll.lookup k := by
  induction I generalizing coll with
  | nil => simp [foldUpd]
  | cons id rest ih =>
    have hnd' := (List.nodup_cons.mp hnd).2
    have hid : id ∉ rest := (List.nodup_cons.mp hnd).1
    simp only [foldUpd, List.foldl_cons]
    rw [show List.foldl (fun ds id => alistModify ds id (mergeUpd now))
        (alistModify coll id (mergeUpd now)) rest
          = foldUpd now rest (alistModify coll id (mergeUpd now)) from rfl,
      ih _ hnd']
    by_cases hk : k = id
    · subst hk
      simp [hid, lookup_alistModify_self]
    · rw [lookup_alistModify_ne _ _ _ _ hk]
      simp [List.mem_cons, hk]

theorem foldl_update_storage (now : PyVal) (I : List String)
    (storage : Storage) (coll : List (String × Doc))
    (h : storage.lookup "todos" = some coll) :
    (I.foldl (fun st id => (update_document st "todos" id (updDoc now)).2)
        storage).lookup "todos" = some (foldUpd now I coll) := by
  induction I generalizing storage coll with
  | nil => simpa [foldUpd] using h
  | cons id rest ih =>
    simp only [List.foldl_cons, foldUpd]
    have hstep := update_document_todos storage coll id (updDoc now) h
    have h2 : ((update_document storage "todos" id (updDoc now)).2).lookup
        "todos" = some (alistModify coll id (mergeUpd now)) := by
      rw [hstep]
      show (alistModify storage "todos" _).lookup "todos" = _
      rw [lookup_alistModify_self, h]
      rfl
    exact ih _ _ h2

theorem find?_injectId (coll : List (String × Doc)) (tid : String)
    (task : Doc) (h : coll.lookup tid = some task) :
    (coll.map injectId).find?
        (fun t => t.lookup "id" == some (PyVal.vstr tid))
      = some (injectId (tid, task)) := by
  induction coll with
  | nil => simp [List.lookup] at h
  | cons kv tl ih =>
    obtain ⟨a, b⟩ := kv
    by_cases hk : tid = a
    · subst hk
      simp only [List.lookup, beq_self_eq_true] at h
      have hb : b = task := by simpa using h
      subst hb
      have htest : ((injectId (tid, b)).lookup "id"
          == some (PyVal.vstr tid)) = true := by
        simp [injectId, lookup_dictInsert_self]
      simp [List.find?, htest]
    · have h1 : (tid == a) = false := by simp [beq_eq_false_iff_ne, hk]
      simp only [List.lookup, h1] at h
      have hk' : ¬ a = tid := fun hh => hk hh.symm
      have htest : ((injectId (a, b)).lookup "id"
          == some (PyVal.vstr tid)) = false := by
        simp only [injectId, lookup_dictInsert_self]
        simp [hk']
      simp [List.find?, htest, ih h]

theorem subtask_ids_eq (coll : List (String × Doc)) (tid : String) :
    ((coll.map injectId).filter (parentMatch tid)).map
        (fun s => pyGetStrD s "id" "")
      = (coll.filter (fun kv => parentMatch tid (injectId kv))).map Prod.fst := by
  induction coll with
  | nil => simp
  | cons kv tl ih =>
    by_cases hp : parentMatch tid (injectId kv)
    · simp [List.filter, hp, pyGetStrD_injectId, ih]
    · simp only [Bool.not_eq_true] at hp
      simp [List.filter, hp, ih]

theorem subtask_ids_nodup (coll : List (String × Doc)) (tid : String)
    (h2 : (coll.map Prod.fst).Nodup) :
    ((((coll.map injectId).filter (parentMatch tid)).mergeSort orderLe).map
      (fun s => pyGetStrD s "id" "")).Nodup := by
  have hperm : List.Perm
      ((((coll.map injectId).filter (parentMatch tid)).mergeSort
        orderLe).map (fun s => pyGetStrD s "id" ""))
      (((coll.map injectId).filter (parentMatch tid)).map
          (fun s => pyGetStrD s "id" "")) :=
    (List.mergeSort_perm _ _).map _
  rw [hperm.nodup_iff, subtask_ids_eq]
  exact ((List.filter_sublist coll).map Prod.fst).nodup h2

/-- C10: `complete_task` on a stored doc sets `completed = true` and a
`completed_at` timestamp on that doc; when the doc is a main task (no
`parent_id` key) every doc whose `parent_id` equals its id is marked the same
way, while completing a subtask (a doc with a `parent_id` key) touches no
other doc; unrelated docs are never modified. -/
theorem complete_task_spec
    (storage : Storage) (coll : List (String × Doc)) (task_id : String)
    (task : Doc) (now : PyVal)
    (h1 : storage.lookup "todos" = some coll)
    (h2 : (coll.map Prod.fst).Nodup)
    (h3 : coll.lookup task_id = some task) :
    (complete_task storage task_id now).1 = true ∧
    ∃ coll',
      ((complete_task storage task_id now).2).lookup "todos" = some coll' ∧
      (coll'.lookup task_id = some (mergeUpd now task) ∧
        (mergeUpd now task).lookup "completed" = some (PyVal.vbool true) ∧
        (mergeUpd now task).lookup "completed_at" = some now) ∧
      ((task.lookup "parent_id").isNone →
        ∀ kv ∈ coll, kv.2.lookup "parent_id" = some (PyVal.vstr task_id) →
          coll'.lookup kv.1 = some (mergeUpd now kv.2)) ∧
      (∀ kv ∈ coll, kv.1 ≠ task_id →
        kv.2.lookup "parent_id" ≠ some (PyVal.vstr task_id) →
        coll'.lookup kv.1 = some kv.2) ∧
      (¬ (task.lookup "parent_id").isNone →
        ∀ k, k ≠ task_id → coll'.lookup k = coll.lookup k) := by
  have hgd := get_documents_todos storage coll h1
  have hfind := find?_injectId coll task_id task h3
  have hpar : (injectId (task_id, task)).lookup "parent_id"
      = task.lookup "parent_id" :=
    lookup_injectId_ne _ _ (by decide)
  have hupd : update_document storage "todos" task_id (updDoc now)
      = (true, alistModify storage "todos"
          (fun ds => alistModify ds task_id (mergeUpd now))) := by
    rw [update_document_todos storage coll task_id (updDoc now) h1, h3]
    rfl
  set storageA : Storage := alistModify storage "todos"
    (fun ds => alistModify ds task_id (mergeUpd now)) with hsA
  set collA : List (String × Doc) := alistModify coll task_id (mergeUpd now)
    with hcA
  have hA : storageA.lookup "todos" = some collA := by
    rw [hsA, lookup_alistModify_self, h1]
    rfl
  have hndA : (collA.map Prod.fst).Nodup := by
    rw [hcA, keys_alistModify]
    exact h2
  have hlkA : collA.lookup task_id = some (mergeUpd now task) := by
    rw [hcA, lookup_alistModify_self, h3]
    rfl
  have hlkA_ne : ∀ k, k ≠ task_id → collA.lookup k = coll.lookup k := by
    intro k hk
    rw [hcA, lookup_alistModify_ne _ _ _ _ hk]
  have hupdlit : update_document storage "todos" task_id
      [("completed", PyVal.vbool true), ("completed_at", now)]
      = (true, storageA) := hupd
  by_cases hcase : (task.lookup "parent_id").isNone
  · -- main task: the subtask loop runs
    have hcasenone : task.lookup "parent_id" = none :=
      Option.isNone_iff_eq_none.mp hcase
    have hsubsA := get_subtasks_todos storageA collA task_id hA
    set subsA : List Doc :=
      ((collA.map injectId).filter (parentMatch task_id)).mergeSort orderLe
      with hsubsA_def
    set IA : List String := subsA.map (fun s => pyGetStrD s "id" "") with hIA
    have hct : complete_task storage task_id now
        = (true,
           IA.foldl
             (fun st id => (update_document st "todos" id (updDoc now)).2)
             storageA) := by
      simp only [complete_task, collection_name]
      rw [hgd]
      simp only [hfind, hpar, hcase, eq_self_iff_true, if_true, hupdlit]
      rw [hsubsA]
      simp only [hIA, List.foldl_map]
      rfl
    have hndIA : IA.Nodup := subtask_ids_nodup collA task_id hndA
    have hst4 : ((complete_task storage task_id now).2).lookup "todos"
        = some (foldUpd now IA collA) := by
      rw [hct]
      exact foldl_update_storage now IA storageA collA hA
    have htid_not : task_id ∉ IA := by
      intro hin
      obtain ⟨kv, hkv, hk1, hm⟩ := subtask_ids_sound collA task_id task_id hin
      have hlk : collA.lookup kv.1 = some kv.2 := mem_nodupkeys_lookup hndA hkv
      rw [hk1, hlkA] at hlk
      have heq : kv.2 = mergeUpd now task := by simpa using hlk.symm
      rw [heq, mergeUpd_other _ _ _ (by decide) (by decide), hcasenone] at hm
      exact Option.noConfusion hm
    refine ⟨by rw [hct], foldUpd now IA collA, hst4, ?_, ?_, ?_, ?_⟩
    · refine ⟨?_, mergeUpd_completed now task, mergeUpd_completed_at now task⟩
      rw [lookup_foldUpd _ _ _ _ hndIA, if_neg htid_not, hlkA]
    · intro _ kv hkv hm
      have hkne : kv.1 ≠ task_id := by
        intro hk
        have hlk : coll.lookup kv.1 = some kv.2 := mem_nodupkeys_lookup h2 hkv
        rw [hk, h3] at hlk
        have heq : kv.2 = task := by simpa using hlk.symm
        rw [heq, hcasenone] at hm
        exact Option.noConfusion hm
      have hkvA : kv ∈ collA := by
        rw [hcA]
        exact (mem_alistModify_of_ne hkne).mpr hkv
      have hinIA : kv.1 ∈ IA := subtask_ids_complete collA task_id kv hkvA hm
      rw [lookup_foldUpd _ _ _ _ hndIA, if_pos hinIA, hlkA_ne _ hkne,
        mem_nodupkeys_lookup h2 hkv]
      rfl
    · intro kv hkv hkne hm
      have hnot : kv.1 ∉ IA := by
        intro hin
        obtain ⟨kv', hkv', hk1, hm'⟩ := subtask_ids_sound collA task_id kv.1 hin
        have e1 : collA.lookup kv'.1 = some kv'.2 :=
          mem_nodupkeys_lookup hndA hkv'
        rw [hk1, hlkA_ne _ hkne, mem_nodupkeys_lookup h2 hkv] at e1
        have heq : kv'.2 = kv.2 := by simpa using e1.symm
        rw [heq] at hm'
        exact hm hm'
      rw [lookup_foldUpd _ _ _ _ hndIA, if_neg hnot, hlkA_ne _ hkne]
      exact mem_nodupkeys_lookup h2 hkv
    · intro hcontra
      exact absurd hcase hcontra
  · -- subtask: only the one doc is updated
    have hfalse : (task.lookup "parent_id").isNone = false := by
      simpa using hcase
    have hct : complete_task storage task_id now = (true, storageA) := by
      simp only [complete_task, collection_name]
      rw [hgd]
      simp only [hfind, hpar, hfalse, Bool.false_eq_true, if_false, hupdlit]
    refine ⟨by rw [hct], collA, by rw [hct]; exact hA, ?_, ?_, ?_, ?_⟩
    · exact ⟨hlkA, mergeUpd_completed now task, mergeUpd_completed_at now task⟩
    · intro hcontra
      exact absurd hcontra hcase
    · intro kv hkv hkne _
      rw [hlkA_ne _ hkne]
      exact mem_nodupkeys_lookup h2 hkv
    · intro _ k hk
      exact hlkA_ne _ hk

/-- Witness for C6: cascade delete of `t1` on the concrete store succeeds and
leaves no queryable subtask. -/
theorem delete_task_cascade_witness :
    (delete_task_with_subtasks sampleStorage "t1").1 = true ∧
    (get_subtasks (delete_task_with_subtasks sampleStorage "t1").2 "t1").1
      = [] := by
  have h := delete_task_cascade sampleStorage sampleColl "t1"
    [("title", PyVal.vstr "Parent")] (by decide) (by decide) (by decide)
    (by decide)
  obtain ⟨hb, coll', hc, hn, hforall, hpres, he⟩ := h
  exact ⟨hb, he⟩

/-- Witness for C10: completing `t1` on the concrete store succeeds and marks
the subtask `s1` completed. -/
theorem complete_task_spec_witness :
    (complete_task sampleStorage "t1" (PyVal.vstr "TS")).1 = true ∧
    ∃ coll',
      ((complete_task sampleStorage "t1" (PyVal.vstr "TS")).2).lookup "todos"
        = some coll' ∧
      coll'.lookup "t1"
        = some (mergeUpd (PyVal.vstr "TS") [("title", PyVal.vstr "Parent")]) := by
  have h := complete_task_spec sampleStorage sampleColl "t1"
    [("title", PyVal.vstr "Parent")] (PyVal.vstr "TS")
    (by decide) (by decide) (by decide)
  obtain ⟨hb, coll', hc, ⟨hp, _, _⟩, _, _, _⟩ := h
  exact ⟨hb, coll', hc, hp⟩

end TaskService

namespace HistoryService

/-- C3 (counterexample): a backing-store write failure makes
`add_history_entry` return `False`, refuting the claim that `record` always
reports success even when the backing store write fails. -/
theorem add_history_entry_not_always_success :
    (add_history_entry (some failingFirebase) () "task_creation"
      "Tarefa criada: T" "2024-01-01T00:00:00" PyVal.vnone).1 = false := rfl

/-- C3 (amended): `add_history_entry` never raises; it reports success when
no backing service is configured, and with a backing service it reports
success iff the store write returned a truthy id; a failed write is
reported as `False` (logged only, not raised). -/
theorem add_history_entry_spec (σ : Type) (fb : FirebaseLike σ) (s : σ)
    (action_type description timestamp : String) (data : PyVal) :
    add_history_entry (none : Option (FirebaseLike σ)) s action_type
        description timestamp data = (true, s) ∧
    ((add_history_entry (some fb) s action_type description timestamp
        data).1 = true ↔
      ∃ entry_id,
        (fb.add_document s collection_name
          (historyEntry action_type description timestamp data)).1
            = some entry_id ∧ entry_id ≠ "") := by
  refine ⟨rfl, ?_⟩
  simp only [add_history_entry]
  cases h : (fb.add_document s collection_name
      (historyEntry action_type description timestamp data)).1 with
  | none => simp
  | some entry_id =>
    simp only [Bool.not_eq_true', beq_eq_false_iff_ne, ne_eq,
      Option.some.injEq]
    constructor
    · intro hne
      exact ⟨entry_id, rfl, by simpa using hne⟩
    · rintro ⟨id', hid', hne⟩
      subst hid'
      simpa using hne

/-- C7 (counterexample): the default `limit` of `get_history` is 10, not 20;
with eleven stored entries an unfiltered default query returns only ten. -/
theorem get_history_default_limit_cex :
    get_history_default_limit = 10 ∧
    elevenDocs.length = 11 ∧
    ((get_history (some elevenFirebase) () get_history_default_limit
      none).1).length = 10 := by
  refine ⟨rfl, rfl, ?_⟩
  simp only [get_history, collection_name, elevenFirebase]
  rw [List.length_take, (List.mergeSort_perm _ _).length_eq]
  rfl

/-- C7 (amended): `get_history` returns the stored entries sorted descending
by `timestamp`, filtered to the given truthy `action_type` when one is
given, truncated to `limit`; the default limit is 10 (not 20). -/
theorem get_history_spec (σ : Type) (fb : FirebaseLike σ) (s : σ)
    (limit : Nat) (tf : Option String) :
    ((get_history (some fb) s limit tf).1).Pairwise
        (fun a b => timestampKey b ≤ timestampKey a) ∧
    (∀ t, tf = some t → t ≠ "" →
      ∀ e ∈ (get_history (some fb) s limit tf).1,
        e.lookup "action_type" = some (PyVal.vstr t)) ∧
    ((get_history (some fb) s limit tf).1).length ≤ limit ∧
    (∀ e ∈ (get_history (some fb) s limit tf).1,
      e ∈ (fb.get_documents s collection_name).1) ∧
    get_history_default_limit = 10 := by
  have htrans : ∀ a b c : Doc,
      (decide (timestampKey b ≤ timestampKey a)) = true →
      (decide (timestampKey c ≤ timestampKey b)) = true →
      (decide (timestampKey c ≤ timestampKey a)) = true := by
    intro a b c h1 h2
    simp only [decide_eq_true_eq] at *
    exact le_trans h2 h1
  have htotal : ∀ a b : Doc,
      ((decide (timestampKey b ≤ timestampKey a))
        || (decide (timestampKey a ≤ timestampKey b))) = true := by
    intro a b
    rcases le_total (timestampKey b) (timestampKey a) with h | h <;>
      simp [h]
  have hsorted := List.sorted_mergeSort htrans htotal
    (fb.get_documents s collection_name).1
  have hsorted' : ((fb.get_documents s collection_name).1.mergeSort
      (fun a b => decide (timestampKey b ≤ timestampKey a))).Pairwise
        (fun a b => timestampKey b ≤ timestampKey a) :=
    hsorted.imp (by intro a b h; simpa using h)
  -- the intermediate filtered list
  have hmain : ∀ e2 : List Doc,
      e2.Sublist ((fb.get_documents s collection_name).1.mergeSort
        (fun a b => decide (timestampKey b ≤ timestampKey a))) →
      ((e2.take limit).Pairwise
        (fun a b => timestampKey b ≤ timestampKey a) ∧
       ∀ e ∈ e2.take limit,
         e ∈ (fb.get_documents s collection_name).1) := by
    intro e2 hsub
    constructor
    · exact List.Pairwise.sublist ((e2.take_sublist limit).trans hsub) hsorted'
    · intro e he
      have : e ∈ ((fb.get_documents s collection_name).1.mergeSort
          (fun a b => decide (timestampKey b ≤ timestampKey a))) :=
        (((e2.take_sublist limit).trans hsub).subset) he
      exact List.mem_mergeSort.mp this
  cases tf with
  | none =>
    obtain ⟨hp, hm⟩ := hmain _ (List.Sublist.refl _)
    refine ⟨hp, ?_, ?_, hm, rfl⟩
    · intro t ht
      exact absurd ht (by simp)
    · simp only [get_history]
      rw [List.length_take]
      exact min_le_left _ _
  | some t =>
    by_cases h0 : t = ""
    · subst h0
      have he : (("" : String) == "") = true := by decide
      obtain ⟨hp, hm⟩ := hmain _ (List.Sublist.refl _)
      refine ⟨?_, ?_, ?_, ?_, rfl⟩
      · simpa [get_history, collection_name, he] using hp
      · intro t' ht' hne
        have : t' = "" := by simpa using ht'.symm
        exact absurd this hne
      · simp only [get_history, he, if_true]
        rw [List.length_take]
        exact min_le_left _ _
      · intro e hme
        apply hm
        simpa [get_history, collection_name, he] using hme
    · have he : (t == "") = false := by simp [beq_eq_false_iff_ne, h0]
      obtain ⟨hp, hm⟩ := hmain _ (List.filter_sublist _)
      refine ⟨?_, ?_, ?_, ?_, rfl⟩
      · simpa [get_history, collection_name, he] using hp
      · intro t' ht' hne e hme
        have ht'' : t' = t := by simpa using ht'.symm
        subst ht''
        have hme' : e ∈ (((fb.get_documents s collection_name).1.mergeSort
            (fun a b => decide (timestampKey b ≤ timestampKey a))).filter
              (fun e => e.lookup "action_type"
                == some (PyVal.vstr t'))).take limit := by
          simpa [get_history, collection_name, he] using hme
        have := (List.mem_filter.mp
          ((List.take_sublist _ _).subset hme')).2
        simpa using this
      · simp only [get_history, he, if_false]
        rw [List.length_take]
        exact min_le_left _ _
      · intro e hme
        apply hm
        simpa [get_history, collection_name, he] using hme

end HistoryService

namespace Planning

/-- C8: on the heuristic extraction path, whenever fewer than 3 usable
candidate lines are collected the single created task carries exactly the
fixed 3-item generic fallback subtask list, so the plan has at least 3
subtasks. -/
theorem heuristic_fallback_subtasks (plan_text : String)
    (h : (subtask_lines plan_text).length < 3) :
    final_subtask_lines plan_text = genericSubtasks ∧
    (create_tasks_from_plan_task plan_text).2 = genericSubtasks ∧
    3 ≤ ((create_tasks_from_plan_task plan_text).2).length := by
  have hle : ¬ ((subtask_lines plan_text).length > 10) := by omega
  have hfin : final_subtask_lines plan_text = genericSubtasks := by
    simp only [final_subtask_lines, if_neg hle, if_pos h]
  refine ⟨hfin, ?_, ?_⟩
  · simpa [create_tasks_from_plan_task] using hfin
  · simp [create_tasks_from_plan_task, hfin, genericSubtasks]

/-- Witness for C8 at the spec's own example input. -/
theorem heuristic_fallback_subtasks_witness :
    (subtask_lines c8_input).length < 3 ∧
    final_subtask_lines c8_input = genericSubtasks :=
  ⟨by decide, (heuristic_fallback_subtasks c8_input (by decide)).1⟩

end Planning

namespace Home

open LocalStorageService

/-- C9: materialising a plan in which zero task blocks are identified
returns the failure value (not success), and writes zero documents and zero
history entries — the store and ledger states are returned unchanged. -/
theorem create_tasks_from_plan_empty_plan (plan_text : String)
    (storage : Storage) (history : List Doc)
    (h0 : plan_text ≠ "")
    (h : task_blocks plan_text = []) :
    create_tasks_from_plan (some plan_text) storage history
      = (some false, storage, history) := by
  have h0' : (plan_text == "") = false := by simp [beq_eq_false_iff_ne, h0]
  simp [create_tasks_from_plan, h0', h]

/-- Witness for C9: a plan text with prose but no task block. -/
theorem create_tasks_from_plan_empty_plan_witness :
    create_tasks_from_plan (some "Objetivo: organizar nada") [] []
      = (some false, [], []) :=
  create_tasks_from_plan_empty_plan "Objetivo: organizar nada" [] []
    (by decide) (by decide)

end Home

namespace Json

end Json

namespace Planning

/-- C4 (amended): when the cleaned (fenced or whole) text parses as a JSON
object, `extract` returns that object unchanged apart from adding
`created_at`; missing per-task keys stay missing — no defaulting of
`description`/`priority`/`subtasks` is applied at extraction (the defaults,
e.g. priority `média`, are applied later by the consumers that read the
tasks). -/
theorem extract_plan_adds_created_at_only (response now : String)
    (fields : List (String × PyObj))
    (h : Json.json_loads (String.mk (extract_json_str response))
      = some (PyObj.pobj fields)) :
    extract_plan response now
      = some (PyObj.pobj (dictInsert fields "created_at" (PyObj.pstr now))) := by
  simp [extract_plan, h]

/-- Witness for C4 (amended) at the spec's own example input. -/
theorem extract_plan_adds_created_at_only_witness :
    extract_plan c4_input "TS"
      = some (PyObj.pobj
          [("title", PyObj.pstr "T"),
           ("tasks", PyObj.parr [PyObj.pobj [("title", PyObj.pstr "A")]]),
           ("created_at", PyObj.pstr "TS")]) := by
  have h : Json.json_loads (String.mk (extract_json_str c4_input))
      = some (PyObj.pobj
          [("title", PyObj.pstr "T"),
           ("tasks", PyObj.parr [PyObj.pobj [("title", PyObj.pstr "A")]])]) :=
    rfl
  rw [extract_plan_adds_created_at_only c4_input "TS" _ h]
  rfl

/-- C4 (counterexample): on the spec's fenced-JSON input the only task of
the extracted plan is exactly the parsed object with a single `title` key —
`priority`, `subtasks` and `description` are absent, so the result is not
the claimed fully-defaulted plan. -/
theorem extract_plan_no_defaulting_cex :
    (match extract_plan c4_input "TS" with
     | some (PyObj.pobj fields) =>
       match fields.lookup "tasks" with
       | some (PyObj.parr [PyObj.pobj task0]) =>
         task0.lookup "priority" = none ∧ task0.lookup "subtasks" = none ∧
           task0.lookup "description" = none
       | _ => False
     | _ => False) ∧
    extract_plan c4_input "TS"
      ≠ some (PyObj.pobj
          [("title", PyObj.pstr "T"),
           ("tasks", PyObj.parr [PyObj.pobj
             [("title", PyObj.pstr "A"), ("description", PyObj.pstr ""),
              ("priority", PyObj.pstr "média"),
              ("subtasks", PyObj.parr [])]])]) := by
  constructor
  · exact ⟨rfl, rfl, rfl⟩
  · intro hcontra
    have h1 : extract_plan c4_input "TS"
        = some (PyObj.pobj
            [("title", PyObj.pstr "T"),
             ("tasks", PyObj.parr [PyObj.pobj [("title", PyObj.pstr "A")]]),
             ("created_at", PyObj.pstr "TS")]) := rfl
    rw [h1] at hcontra
    simp only [Option.some.injEq, PyObj.pobj.injEq, List.cons.injEq,
      Prod.mk.injEq, PyObj.parr.injEq, PyObj.pstr.injEq] at hcontra
    exact List.noConfusion hcontra.2.1.2.1.2

end Planning

namespace ModuleRegistry

theorem pres_refl (st : RegState) : Pres st st :=
  ⟨fun _ h => h, fun _ info h => ⟨info, h, rfl, rfl, fun hl => hl⟩⟩

theorem pres_trans {s1 s2 s3 : RegState} (h12 : Pres s1 s2)
    (h23 : Pres s2 s3) : Pres s1 s3 := by
  refine ⟨fun n h => h23.1 n (h12.1 n h), fun n info h => ?_⟩
  obtain ⟨i2, h2, hd2, hp2, hl2⟩ := h12.2 n info h
  obtain ⟨i3, h3, hd3, hp3, hl3⟩ := h23.2 n i2 h2
  exact ⟨i3, h3, hd3.trans hd2, hp3.trans hp2,
    fun hl => hl3 (hl2 hl)⟩

theorem pres_set_loaded (st : RegState) (name : String) (m : PyModule) :
    Pres st (set_loaded st name m) := by
  constructor
  · intro n h
    by_cases hn : n = name
    · subst hn
      rw [set_loaded, lookup_alistModify_self, h]
      rfl
    · rw [set_loaded, lookup_alistModify_ne _ _ _ _ hn]
      exact h
  · intro n info h
    by_cases hn : n = name
    · subst hn
      refine ⟨{ info with
          module_instance := some m
          exported_components := extract_exports m info.exported_components
          is_loaded := true }, ?_, rfl, rfl, fun _ => rfl⟩
      rw [set_loaded, lookup_alistModify_self, h]
      rfl
    · exact ⟨info, by rw [set_loaded, lookup_alistModify_ne _ _ _ _ hn]; exact h,
        rfl, rfl, fun hl => hl⟩

theorem isLoadedB_mono {st st' : RegState} (h : Pres st st') (n : String)
    (hl : isLoadedB st n = true) : isLoadedB st' n = true := by
  unfold isLoadedB at *
  cases hlk : st.lookup n with
  | none => rw [hlk] at hl; simp at hl
  | some info =>
    rw [hlk] at hl
    obtain ⟨info', h', _, _, hmono⟩ := h.2 n info hlk
    rw [h']
    exact hmono hl

theorem pres_load (IT : ImportTable) : ∀ fuel : Nat,
    (∀ st name b st', load_module IT fuel st name = some (b, st') →
      Pres st st') ∧
    (∀ st deps b st', load_deps IT fuel st deps = some (b, st') →
      Pres st st') := by
  intro fuel
  induction fuel with
  | zero =>
    constructor
    · intro st name b st' h
      simp [load_module] at h
    · intro st deps b st' h
      cases deps <;> simp [load_deps] at h
  | succ fuel ih =>
    constructor
    · intro st name b st' h
      simp only [load_module] at h
      split at h
      · cases h
        exact pres_refl st
      · split at h
        · cases h
          exact pres_refl st
        · split at h
          · exact absurd h (by simp)
          · cases h
            exact ih.2 _ _ _ _ (by assumption)
          · rename_i st1 hdeps
            split at h
            · cases h
              exact ih.2 _ _ _ _ hdeps
            · cases h
              exact pres_trans (ih.2 _ _ _ _ hdeps) (pres_set_loaded _ _ _)
    · intro st deps b st' h
      cases deps with
      | nil =>
        simp only [load_deps] at h
        cases h
        exact pres_refl st
      | cons dep rest =>
        simp only [load_deps] at h
        split at h
        · split at h
          · exact absurd h (by simp)
          · cases h
            exact ih.1 _ _ _ _ (by assumption)
          · rename_i st1 hdep
            exact pres_trans (ih.1 _ _ _ _ hdep) (ih.2 _ _ _ _ h)
        · exact ih.2 _ _ _ _ h

theorem loaded_of_success (IT : ImportTable) (fuel : Nat) (st : RegState)
    (name : String) (st' : RegState)
    (h : load_module IT fuel st name = some (true, st')) :
    isLoadedB st' name = true := by
  cases fuel with
  | zero => simp [load_module] at h
  | succ fuel =>
    simp only [load_module] at h
    split at h
    · exact absurd h (by simp)
    · rename_i module_info hlk
      split at h
      · rename_i hloaded
        cases h
        unfold isLoadedB
        rw [hlk]
        exact hloaded
      · split at h
        · simp at h
        · exact absurd h (by simp)
        · rename_i st1 hdeps
          split at h
          · exact absurd h (by simp)
          · cases h
            have hpres := (pres_load IT fuel).2 _ _ _ _ hdeps
            obtain ⟨info1, hlk1, _, _, _⟩ := hpres.2 _ _ hlk
            unfold isLoadedB
            rw [set_loaded, lookup_alistModify_self, hlk1]
            rfl

theorem depNeedsLoad_false {st : RegState} {d : String}
    (h : ¬ depNeedsLoad st d = true) : isLoadedB st d = true := by
  unfold depNeedsLoad at h
  unfold isLoadedB
  cases hlk : st.lookup d with
  | none => rw [hlk] at h; simp at h
  | some info =>
    rw [hlk] at h
    simpa using h

theorem deps_loaded (IT : ImportTable) : ∀ fuel st deps st',
    load_deps IT fuel st deps = some (true, st') →
    ∀ d ∈ deps, isLoadedB st' d = true := by
  intro fuel
  induction fuel with
  | zero =>
    intro st deps st' h
    cases deps <;> simp [load_deps] at h
  | succ fuel ih =>
    intro st deps st' h d hd
    cases deps with
    | nil => simp at hd
    | cons dep rest =>
      simp only [load_deps] at h
      split at h
      · split at h
        · simp at h
        · exact absurd h (by simp)
        · rename_i st1 hdep
          rcases List.mem_cons.mp hd with hdd | hdd
          · subst hdd
            have h1 := loaded_of_success IT fuel st d st1 hdep
            exact isLoadedB_mono ((pres_load IT fuel).2 _ _ _ _ h) d h1
          · exact ih _ _ _ h d hdd
      · rename_i hneed
        rcases List.mem_cons.mp hd with hdd | hdd
        · subst hdd
          exact isLoadedB_mono ((pres_load IT fuel).2 _ _ _ _ h) d
            (depNeedsLoad_false hneed)
        · exact ih _ _ _ h d hdd

theorem depOf_mono {st st' : RegState} (h : Pres st st') {a b : String}
    (hd : depOf st a b) : depOf st' a b := by
  obtain ⟨info, hlk, hb⟩ := hd
  obtain ⟨info', hlk', hdeps, _, _⟩ := h.2 a info hlk
  exact ⟨info', hlk', hdeps ▸ hb⟩

theorem chainInto_mono {st st' : RegState} (h : Pres st st') :
    ∀ A t, chainInto st A t → chainInto st' A t := by
  intro A
  induction A with
  | nil => intro t _; trivial
  | cons a rest ih =>
    intro t hc
    cases rest with
    | nil => exact depOf_mono h hc
    | cons b rest2 => exact ⟨depOf_mono h hc.1, ih t hc.2⟩

theorem chainInto_append (st : RegState) (A : List String)
    (lastm d : String) (hc : chainInto st A lastm)
    (hd : depOf st lastm d) : chainInto st (A ++ [lastm]) d := by
  induction A with
  | nil => exact hd
  | cons a rest ih =>
    cases rest with
    | nil => exact ⟨hc, hd⟩
    | cons b rest2 => exact ⟨hc.1, ih hc.2⟩

theorem chain_mem_cycle (st : RegState) (A : List String) (t m : String)
    (hc : chainInto st A t) (hm : m ∈ A) :
    ∃ c, depOf st m c ∧ (c ∈ A ∨ c = t) := by
  induction A with
  | nil => simp at hm
  | cons a rest ih =>
    cases rest with
    | nil =>
      have hma : m = a := by simpa using hm
      subst hma
      exact ⟨t, hc, Or.inr rfl⟩
    | cons b rest2 =>
      rcases List.mem_cons.mp hm with hma | hmr
      · subst hma
        exact ⟨b, hc.1, Or.inl (List.mem_cons_of_mem _ (List.mem_cons_self _ _))⟩
      · obtain ⟨c, hdc, hcin⟩ := ih hc.2 hmr
        refine ⟨c, hdc, ?_⟩
        rcases hcin with hcin | hcin
        · exact Or.inl (List.mem_cons_of_mem _ hcin)
        · exact Or.inr hcin

theorem no_reentrant_load (IT : ImportTable) : ∀ fuel : Nat,
    (∀ st m b st' A, chainInto st A m →
      (∀ a ∈ A, isLoadedB st a = false) →
      load_module IT fuel st m = some (b, st') →
      ∀ a ∈ A, isLoadedB st' a = false) ∧
    (∀ st deps b st' A lastm, chainInto st A lastm →
      (∀ a ∈ A, isLoadedB st a = false) →
      isLoadedB st lastm = false →
      (∀ d ∈ deps, depOf st lastm d) →
      load_deps IT fuel st deps = some (b, st') →
      (∀ a ∈ A, isLoadedB st' a = false) ∧
        isLoadedB st' lastm = false) := by
  intro fuel
  induction fuel with
  | zero =>
    constructor
    · intro st m b st' A _ _ h
      simp [load_module] at h
    · intro st deps b st' A lastm _ _ _ _ h
      cases deps <;> simp [load_deps] at h
  | succ fuel ih =>
    constructor
    · intro st m b st' A hchain hunl h
      simp only [load_module] at h
      split at h
      · cases h
        exact hunl
      · rename_i module_info hlk
        split at h
        · cases h
          exact hunl
        · rename_i hnl
          have hm0 : isLoadedB st m = false := by
            unfold isLoadedB
            rw [hlk]
            simpa using hnl
          have hdepsOf : ∀ d ∈ module_info.dependencies, depOf st m d :=
            fun d hd => ⟨module_info, hlk, hd⟩
          split at h
          · exact absurd h (by simp)
          · rename_i st1 hdeps
            cases h
            exact (ih.2 st _ false _ A m hchain hunl hm0 hdepsOf hdeps).1
          · rename_i st1 hdeps
            obtain ⟨hA1, hm1⟩ :=
              ih.2 st _ true st1 A m hchain hunl hm0 hdepsOf hdeps
            split at h
            · cases h
              exact hA1
            · rename_i mi himp
              cases h
              intro a ha
              by_cases ham : a = m
              · subst ham
                obtain ⟨c, hdep_mc, hcA⟩ := chain_mem_cycle st A a a hchain ha
                obtain ⟨info0, hlk0, hc⟩ := hdep_mc
                rw [hlk] at hlk0
                have hinfo : info0 = module_info := by
                  simpa using hlk0.symm
                subst hinfo
                have hcl := deps_loaded IT fuel st _ st1 hdeps c hc
                rcases hcA with hcin | hceq
                · rw [hA1 c hcin] at hcl
                  exact absurd hcl (by simp)
                · subst hceq
                  rw [hm1] at hcl
                  exact absurd hcl (by simp)
              · have hfin := hA1 a ha
                unfold isLoadedB at hfin ⊢
                rw [set_loaded, lookup_alistModify_ne _ _ _ _ ham]
                exact hfin
    · intro st deps b st' A lastm hchain hunlA hunlm hdepsOf h
      cases deps with
      | nil =>
        simp only [load_deps] at h
        cases h
        exact ⟨hunlA, hunlm⟩
      | cons dep rest =>
        have hchain' : chainInto st (A ++ [lastm]) dep :=
          chainInto_append st A lastm dep hchain
            (hdepsOf dep (List.mem_cons_self _ _))
        have hunl' : ∀ a ∈ A ++ [lastm], isLoadedB st a = false := by
          intro a ha
          rcases List.mem_append.mp ha with ha | ha
          · exact hunlA a ha
          · have : a = lastm := by simpa using ha
            subst this
            exact hunlm
        have hlastmem : lastm ∈ A ++ [lastm] :=
          List.mem_append.mpr (Or.inr (List.mem_cons_self _ _))
        simp only [load_deps] at h
        split at h
        · split at h
          · exact absurd h (by simp)
          · rename_i st1 hdep
            cases h
            have hres := ih.1 st dep false _ (A ++ [lastm]) hchain' hunl' hdep
            exact ⟨fun a ha => hres a (List.mem_append.mpr (Or.inl ha)),
              hres lastm hlastmem⟩
          · rename_i st1 hdep
            have hres := ih.1 st dep true st1 (A ++ [lastm]) hchain' hunl' hdep
            have hpres := (pres_load IT fuel).1 _ _ _ _ hdep
            exact ih.2 st1 rest b st' A lastm
              (chainInto_mono hpres A lastm hchain)
              (fun a ha => hres a (List.mem_append.mpr (Or.inl ha)))
              (hres lastm hlastmem)
              (fun d hd => depOf_mono hpres
                (hdepsOf d (List.mem_cons_of_mem _ hd)))
              h
        · exact ih.2 st rest b st' A lastm hchain hunlA hunlm
            (fun d hd => hdepsOf d (List.mem_cons_of_mem _ hd)) h

theorem not_loaded_of_failure (IT : ImportTable) (fuel : Nat)
    (st : RegState) (name : String) (st' : RegState)
    (h : load_module IT fuel st name = some (false, st')) :
    isLoadedB st name = false ∧ isLoadedB st' name = false := by
  cases fuel with
  | zero => simp [load_module] at h
  | succ fuel =>
    simp only [load_module] at h
    split at h
    · rename_i hlk
      cases h
      constructor <;> (unfold isLoadedB; rw [hlk])
    · rename_i module_info hlk
      split at h
      · exact absurd h (by simp)
      · rename_i hnl
        have hm0 : isLoadedB st name = false := by
          unfold isLoadedB
          rw [hlk]
          simpa using hnl
        have hdepsOf : ∀ d ∈ module_info.dependencies, depOf st name d :=
          fun d hd => ⟨module_info, hlk, hd⟩
        split at h
        · exact absurd h (by simp)
        · rename_i st1 hdeps
          cases h
          exact ⟨hm0, ((no_reentrant_load IT fuel).2 st _ false _ [] name
            trivial (by simp) hm0 hdepsOf hdeps).2⟩
        · rename_i st1 hdeps
          split at h
          · cases h
            exact ⟨hm0, ((no_reentrant_load IT fuel).2 st _ true _ [] name
              trivial (by simp) hm0 hdepsOf hdeps).2⟩
          · exact absurd h (by simp)

theorem mem_alistModify {l : List (String × β)} {k : String} {f : β → β}
    {e' : String × β} (h : e' ∈ alistModify l k f) :
    e' ∈ l ∨ ∃ v, l.lookup k = some v ∧ e' = (k, f v) := by
  induction l with
  | nil => simp [alistModify] at h
  | cons a tl ih =>
    by_cases hk : a.1 == k
    · have hk' : a.1 = k := by simpa [beq_iff_eq] using hk
      simp only [alistModify, hk, if_true] at h
      rcases List.mem_cons.mp h with h0 | h0
      · refine Or.inr ⟨a.2, ?_, ?_⟩
        · subst hk'
          simp [List.lookup]
        · rw [h0, hk']
      · exact Or.inl (List.mem_cons_of_mem _ h0)
    · simp only [alistModify, hk, if_false] at h
      rcases List.mem_cons.mp h with h0 | h0
      · exact Or.inl (h0 ▸ List.mem_cons_self _ _)
      · rcases ih h0 with h1 | ⟨v, hv, he⟩
        · exact Or.inl (List.mem_cons_of_mem _ h1)
        · refine Or.inr ⟨v, ?_, he⟩
          have hk2 : ¬ a.1 = k := by simpa [beq_iff_eq] using hk
          have hkne : (k == a.1) = false := by
            simp only [beq_eq_false_iff_ne, ne_eq]
            intro hh
            exact hk2 hh.symm
          simp [List.lookup, hkne, hv]

theorem isLoadedB_set_loaded_mono {st : RegState} {n d : String}
    {m : PyModule} (h : isLoadedB st d = true) :
    isLoadedB (set_loaded st n m) d = true :=
  isLoadedB_mono (pres_set_loaded st n m) d h

theorem closed_load (IT : ImportTable) : ∀ fuel : Nat,
    (∀ st name b st', LoadedClosed st →
      load_module IT fuel st name = some (b, st') → LoadedClosed st') ∧
    (∀ st deps b st', LoadedClosed st →
      load_deps IT fuel st deps = some (b, st') → LoadedClosed st') := by
  intro fuel
  induction fuel with
  | zero =>
    constructor
    · intro st name b st' _ h
      simp [load_module] at h
    · intro st deps b st' _ h
      cases deps <;> simp [load_deps] at h
  | succ fuel ih =>
    constructor
    · intro st name b st' hcl h
      simp only [load_module] at h
      split at h
      · cases h
        exact hcl
      · rename_i module_info hlk
        split at h
        · cases h
          exact hcl
        · split at h
          · exact absurd h (by simp)
          · cases h
            exact ih.2 _ _ _ _ hcl (by assumption)
          · rename_i st1 hdeps
            have hcl1 : LoadedClosed st1 := ih.2 _ _ _ _ hcl hdeps
            split at h
            · cases h
              exact hcl1
            · rename_i mi himp
              cases h
              -- the new state flags `name`; its dependencies were loaded by
              -- the dependency loop
              intro e' he' hl' d hd
              rcases mem_alistModify he' with hmem | ⟨v, hv, he⟩
              · exact isLoadedB_set_loaded_mono (hcl1 e' hmem hl' d hd)
              · obtain ⟨info1, hlk1, hdeps1, _, _⟩ :=
                  ((pres_load IT fuel).2 _ _ _ _ hdeps).2 _ _ hlk
                rw [hlk1] at hv
                have hv' : v = info1 := by simpa using hv.symm
                subst hv'
                have hd' : d ∈ module_info.dependencies := by
                  have : e'.2.dependencies = v.dependencies := by rw [he]
                  rw [this, hdeps1] at hd
                  exact hd
                exact isLoadedB_set_loaded_mono
                  (deps_loaded IT fuel st _ st1 hdeps d hd')
    · intro st deps b st' hcl h
      cases deps with
      | nil =>
        simp only [load_deps] at h
        cases h
        exact hcl
      | cons dep rest =>
        simp only [load_deps] at h
        split at h
        · split at h
          · exact absurd h (by simp)
          · cases h
            exact ih.1 _ _ _ _ hcl (by assumption)
          · rename_i st1 hdep
            exact ih.2 _ _ _ _ (ih.1 _ _ _ _ hcl hdep) h
        · exact ih.2 _ _ _ _ hcl h

/-- C5: `load_module` resolves dependencies depth-first before importing:
when a load reports success, the module and every transitive dependency are
in the loaded state (provided loaded modules already had loaded
dependencies, an invariant every load preserves); when it reports failure,
the module was not loaded before the call and is still not loaded after it
— it is never left partially loaded. -/
theorem load_module_dependency_contract (IT : ImportTable) (fuel : Nat)
    (st : RegState) (name : String) (b : Bool) (st' : RegState)
    (hclosed : LoadedClosed st)
    (h : load_module IT fuel st name = some (b, st')) :
    (b = true → isLoadedB st' name = true ∧ LoadedClosed st' ∧
      ∀ d, Reaches st' name d → isLoadedB st' d = true) ∧
    (b = false → isLoadedB st name = false ∧
      isLoadedB st' name = false) := by
  constructor
  · intro hb
    subst hb
    have h1 := loaded_of_success IT fuel st name st' h
    have h2 := (closed_load IT fuel).1 _ _ _ _ hclosed h
    refine ⟨h1, h2, ?_⟩
    intro d hreach
    induction hreach with
    | direct d info hlk hd =>
      exact h2 _ (lookup_some_mem hlk) (by
        unfold isLoadedB at h1
        rw [hlk] at h1
        exact h1) d hd
    | step m d info hr hlk hd ih =>
      exact h2 _ (lookup_some_mem hlk) (by
        unfold isLoadedB at ih
        rw [hlk] at ih
        exact ih) d hd
  · intro hb
    subst hb
    exact not_loaded_of_failure IT fuel st name st' h

/-- Witness for C5: loading A on the concrete A→B→C registry succeeds and
leaves A, B and C in the loaded state. -/
theorem load_module_dependency_contract_witness :
    load_module c5IT 10 c5St "A" = some (true, c5Final) ∧
    isLoadedB c5Final "A" = true ∧ isLoadedB c5Final "B" = true ∧
    isLoadedB c5Final "C" = true := by
  have hres : load_module c5IT 10 c5St "A" = some (true, c5Final) := by decide
  have h := load_module_dependency_contract c5IT 10 c5St "A" true c5Final
    (by decide) hres
  obtain ⟨hA, hclosed', hreach⟩ := h.1 rfl
  refine ⟨hres, hA, ?_, ?_⟩
  · exact hreach "B" (Reaches.direct "B" c5DoneA (by decide) (by decide))
  · exact hreach "C"
      (Reaches.step "B" "C" c5DoneB
        (Reaches.direct "B" c5DoneA (by decide) (by decide))
        (by decide) (by decide))

theorem mem_dictInsert {l : List (String × β)} {k : String} {v : β}
    {e : String × β} (h : e ∈ dictInsert l k v) : e ∈ l ∨ e = (k, v) := by
  induction l with
  | nil =>
    simp only [dictInsert] at h
    exact Or.inr (by simpa using h)
  | cons a tl ih =>
    by_cases hk : a.1 == k
    · simp only [dictInsert, hk, if_true] at h
      rcases List.mem_cons.mp h with h0 | h0
      · exact Or.inr h0
      · exact Or.inl (List.mem_cons_of_mem _ h0)
    · simp only [dictInsert, hk, if_false] at h
      rcases List.mem_cons.mp h with h0 | h0
      · exact Or.inl (h0 ▸ List.mem_cons_self _ _)
      · rcases ih h0 with h1 | h1
        · exact Or.inl (List.mem_cons_of_mem _ h1)
        · exact Or.inr h1

theorem reginv_register {st : RegState} {info : ModuleInfo}
    (hinv : RegInv st) (hok : ExportOK info) :
    RegInv (register_module st info).2 := by
  intro e he
  rcases mem_dictInsert he with h0 | h0
  · exact hinv e h0
  · rw [h0]
    exact hok

theorem exportOK_discovered (item item_path : String) :
    ExportOK (discovered_info item item_path) :=
  ⟨fun kv hkv => absurd hkv (by simp [discovered_info]), fun _ => rfl⟩

theorem mem_extract_exports (m : PyModule)
    (existing : List (String × Nat)) (kv : String × Nat)
    (h : kv ∈ extract_exports m existing) :
    kv ∈ existing ∨ kv.1 ∈ optExports (some m) := by
  unfold extract_exports at h
  cases hdecl : m.export_decl with
  | none =>
    rw [hdecl] at h
    exact Or.inl h
  | some names =>
    rw [hdecl] at h
    have hgen : ∀ (ns : List String) (ex : List (String × Nat)),
        kv ∈ ns.foldl
          (fun comps component_name =>
            match m.attrs.lookup component_name with
            | some component => dictInsert comps component_name component
            | none => comps) ex →
        kv ∈ ex ∨ kv.1 ∈ ns := by
      intro ns
      induction ns with
      | nil =>
        intro ex hx
        exact Or.inl hx
      | cons n ns ih =>
        intro ex hx
        simp only [List.foldl_cons] at hx
        cases hattr : m.attrs.lookup n with
        | none =>
          rw [hattr] at hx
          rcases ih _ hx with h1 | h1
          · exact Or.inl h1
          · exact Or.inr (List.mem_cons_of_mem _ h1)
        | some component =>
          rw [hattr] at hx
          rcases ih _ hx with h1 | h1
          · rcases mem_dictInsert h1 with h2 | h2
            · exact Or.inl h2
            · exact Or.inr (h2 ▸ List.mem_cons_self _ _)
          · exact Or.inr (List.mem_cons_of_mem _ h1)
    rcases hgen names existing h with h1 | h1
    · exact Or.inl h1
    · exact Or.inr (by simpa [optExports, hdecl] using h1)

theorem reginv_load (IT : ImportTable) : ∀ fuel : Nat,
    (∀ st name b st', RegInv st →
      load_module IT fuel st name = some (b, st') → RegInv st') ∧
    (∀ st deps b st', RegInv st →
      load_deps IT fuel st deps = some (b, st') → RegInv st') := by
  intro fuel
  induction fuel with
  | zero =>
    constructor
    · intro st name b st' _ h
      simp [load_module] at h
    · intro st deps b st' _ h
      cases deps <;> simp [load_deps] at h
  | succ fuel ih =>
    constructor
    · intro st name b st' hinv h
      simp only [load_module] at h
      split at h
      · cases h
        exact hinv
      · rename_i module_info hlk
        split at h
        · cases h
          exact hinv
        · rename_i hnl
          have hm0 : isLoadedB st name = false := by
            unfold isLoadedB
            rw [hlk]
            simpa using hnl
          have hdepsOf : ∀ d ∈ module_info.dependencies, depOf st name d :=
            fun d hd => ⟨module_info, hlk, hd⟩
          split at h
          · exact absurd h (by simp)
          · cases h
            exact ih.2 _ _ _ _ hinv (by assumption)
          · rename_i st1 hdeps
            have hinv1 : RegInv st1 := ih.2 _ _ _ _ hinv hdeps
            have hm1 : isLoadedB st1 name = false :=
              ((no_reentrant_load IT fuel).2 st _ true st1 [] name trivial
                (by simp) hm0 hdepsOf hdeps).2
            split at h
            · cases h
              exact hinv1
            · rename_i mi himp
              cases h
              intro e' he'
              rcases mem_alistModify he' with hmem | ⟨v, hv, he⟩
              · exact hinv1 e' hmem
              · have hvunl : v.is_loaded = false := by
                  unfold isLoadedB at hm1
                  rw [hv] at hm1
                  exact hm1
                have hvempty : v.exported_components = [] :=
                  (hinv1 (name, v) (lookup_some_mem hv)).2 hvunl
                rw [he]
                unfold ExportOK
                refine ⟨?_, ?_⟩
                · intro kv hkv
                  have hkv2 : kv ∈ extract_exports mi v.exported_components :=
                    hkv
                  rw [hvempty] at hkv2
                  rcases mem_extract_exports mi [] kv hkv2 with h1 | h1
                  · simp at h1
                  · exact h1
                · intro hc
                  exact absurd (show (true : Bool) = false from hc) (by simp)
    · intro st deps b st' hinv h
      cases deps with
      | nil =>
        simp only [load_deps] at h
        cases h
        exact hinv
      | cons dep rest =>
        simp only [load_deps] at h
        split at h
        · split at h
          · exact absurd h (by simp)
          · cases h
            exact ih.1 _ _ _ _ hinv (by assumption)
          · rename_i st1 hdep
            exact ih.2 _ _ _ _ (ih.1 _ _ _ _ hinv hdep) h
        · exact ih.2 _ _ _ _ hinv h

theorem get_component_some_export (st : RegState)
    (module_name component_name : String) (hinv : RegInv st) (h : Nat)
    (hsome : get_component st module_name component_name = some h) :
    ∃ info m, st.lookup module_name = some info ∧
      info.is_loaded = true ∧ info.module_instance = some m ∧
      component_name ∈ m.export_decl.getD [] := by
  unfold get_component get_module at hsome
  cases hlk : st.lookup module_name with
  | none =>
    rw [hlk] at hsome
    exact absurd hsome (by simp)
  | some info =>
    rw [hlk] at hsome
    by_cases hl : info.is_loaded = true
    · have hlook : info.exported_components.lookup component_name = some h := by
        simpa [hl] using hsome
      have hmem := lookup_some_mem hlook
      have hok := (hinv (module_name, info) (lookup_some_mem hlk)).1
        (component_name, h) hmem
      cases hmi : info.module_instance with
      | none =>
        rw [hmi] at hok
        simp [optExports] at hok
      | some m =>
        rw [hmi] at hok
        exact ⟨info, m, rfl, hl, hmi, by simpa [optExports] using hok⟩
    · have hl2 : info.is_loaded = false := by simpa using hl
      simp [hl2] at hsome

/-- C2: `get_component` never leaks an unexported component: a non-null
handle implies the module is loaded and the component name appears in its
namespace's declared export list (`__all__`); an unloaded module always
yields `None`; and a component name absent from the declared export list
always yields `None`, even if it is present in the raw module namespace.
The hypothesis `RegInv` holds of every reachable registry state: it is
preserved by `register_module` (`reginv_register` with
`exportOK_discovered`) and by `load_module` (`reginv_load`). -/
theorem get_component_export_boundary (st : RegState)
    (module_name component_name : String) (hinv : RegInv st) :
    (∀ h, get_component st module_name component_name = some h →
      ∃ info m, st.lookup module_name = some info ∧
        info.is_loaded = true ∧ info.module_instance = some m ∧
        component_name ∈ m.export_decl.getD []) ∧
    (∀ info, st.lookup module_name = some info → info.is_loaded = false →
      get_component st module_name component_name = none) ∧
    (∀ info m, st.lookup module_name = some info →
      info.module_instance = some m →
      component_name ∉ m.export_decl.getD [] →
      get_component st module_name component_name = none) := by
  refine ⟨fun h hsome =>
    get_component_some_export st module_name component_name hinv h hsome,
    ?_, ?_⟩
  · intro info hlk hl
    simp [get_component, get_module, hlk, hl]
  · intro info m hlk hmi hnot
    cases hres : get_component st module_name component_name with
    | none => rfl
    | some h =>
      obtain ⟨info', m', hlk', _, hmi', hmem⟩ :=
        get_component_some_export st module_name component_name hinv h hres
      rw [hlk] at hlk'
      have hinfo : info' = info := (Option.some.inj hlk').symm
      subst hinfo
      rw [hmi] at hmi'
      cases Option.some.inj hmi'
      exact absurd hmem hnot

/-- Witness for C2: on a concrete registry whose loaded module has an
undeclared `_internal` attribute in its namespace, `get_component` yields
`None` for `_internal` and the declared `render` handle otherwise. -/
theorem get_component_export_boundary_witness :
    RegInv c2St ∧
    get_component c2St "mod" "_internal" = none ∧
    get_component c2St "mod" "render" = some 11 :=
  ⟨by decide,
   (get_component_export_boundary c2St "mod" "_internal" (by decide)).2.2
     c2Info c2Module (by decide) (by decide) (by decide),
   by decide⟩

/-! ### Cycle handling

`load_module` has no cycle detection: when two registered modules depend
on each other, the dependency loop of each re-enters `load_module` on the
other before either is marked loaded, so the mutual recursion never
returns — in Python, an uncaught `RecursionError` (the recursive call at
`module_registry.py:153` sits outside the `try`).  In the fuel model a
divergent execution returns `none` at every fuel. -/

/-- One unfolding step: a registered, unloaded module whose dependency
list is exactly one not-yet-loaded dependency fails to return whenever
loading that dependency with two fewer fuel units fails to return. -/
theorem load_module_none_of_dep {IT : ImportTable} {fuel : Nat}
    {st : RegState} {name dep : String} {info : ModuleInfo}
    (hlk : st.lookup name = some info)
    (hnl : info.is_loaded = false)
    (hdeps : info.dependencies = [dep])
    (hneed : depNeedsLoad st dep = true)
    (hdep : load_module IT fuel st dep = none) :
    load_module IT (fuel + 2) st name = none := by
  have h2 : fuel + 2 = (fuel + 1) + 1 := rfl
  rw [h2]
  simp only [load_module, load_deps, hlk, hnl, hdeps, hneed, hdep,
    Bool.false_eq_true, if_false, if_true]

theorem cyc_aux : ∀ fuel : Nat,
    load_module cycIT fuel cycSt "X" = none ∧
    load_module cycIT fuel cycSt "Y" = none := by
  intro fuel
  induction fuel using Nat.strong_induction_on with
  | _ fuel ih =>
    cases fuel with
    | zero => exact ⟨rfl, rfl⟩
    | succ f =>
      cases f with
      | zero => exact ⟨rfl, rfl⟩
      | succ m =>
        refine ⟨?_, ?_⟩
        · exact load_module_none_of_dep rfl rfl rfl rfl
            (ih m (by omega)).2
        · exact load_module_none_of_dep rfl rfl rfl rfl
            (ih m (by omega)).1

/-- C1: on the cyclic registry X↔Y, `load_module` never returns at any
recursion depth, for either module: the code loops forever (an uncaught
Python `RecursionError`) instead of terminating with a `CyclicDependency`
failure, refuting the claimed cycle handling. -/
theorem cycle_load_never_returns :
    (∀ fuel, load_module cycIT fuel cycSt "X" = none) ∧
    (∀ fuel, load_module cycIT fuel cycSt "Y" = none) :=
  ⟨fun fuel => (cyc_aux fuel).1, fun fuel => (cyc_aux fuel).2⟩

end ModuleRegistry

end OrgTasks
